import Mathlib

/-!
# Verification of the Kairos-BE core against its specification

This file gives a shallow embedding, in Lean 4, of the parts of the
Kairos-BE Python core that the specification's claims are about:

* the sync planner (`core/data_collector/stock/sync.py`):
  `compute_backfill_start` and `build_cn_sync_plans`, together with a
  model of the Python `datetime.date` type and its arithmetic;
* the score padding and score index (`core/data_collector/stock/financials.py`
  and `core/database/Company.py`): `pad_score`, `build_company_item`,
  `query_by_score`;
* the quote upsert item construction (`core/database/StockData.py` and
  `core/database/MarketData.py`);
* the backtest engine (`core/backtest/engine.py`): `_resolve_price`,
  `_prepare_weights`, `Portfolio.mark_to_market`, `Portfolio.rebalance`,
  `BacktestEngine._resolve_universe`, `BacktestEngine.run`.

Modelling conventions:

* Monetary and price arithmetic inside the portfolio/engine is carried out
  over `ℚ` (exact arithmetic); the Python source uses IEEE binary floats,
  whose rounding is abstracted away.  The concrete scenarios evaluated in
  this file only involve values on which the float computation is exact.
* Where the code inspects the *special values* of floats (NaN and the two
  infinities) — price resolution and the quote upsert conversions — floats
  are modelled by an explicit type `PyFloat` with `nan`, `inf`, `ninf`
  constructors, so that the non-finite branches of the source are faithful.
* Python `dict`s are modelled by association lists in insertion order;
  `dict.get`, insertion and deletion are the corresponding list operations.
* Python's `datetime.date` is modelled by a `(year, month, day)` structure
  with the Gregorian validity predicate; `timedelta(days = n)` arithmetic is
  day-by-day successor/predecessor iteration.
-/

/-! ## Character-level string helpers

The Lean standard-library string functions (`String.trim`, `String.toUpper`,
`String.toNat?`, `String.splitOn`) are implemented by well-founded recursion
over byte positions and do not reduce inside the kernel, so the corresponding
Python operations are modelled here directly on character lists.  All symbol
and key data in the repository is ASCII. -/

/-- `str.upper()` restricted to ASCII. -/
def charUpper (c : Char) : Char :=
  if 'a' ≤ c ∧ c ≤ 'z' then Char.ofNat (c.toNat - 32) else c

def strUpper (s : String) : String := ⟨s.data.map charUpper⟩

def isSpaceChar (c : Char) : Bool := c = ' ' ∨ c = '\t' ∨ c = '\n' ∨ c = '\r'

/-- `str.strip()` (ASCII whitespace). -/
def strStrip (s : String) : String :=
  ⟨((s.data.dropWhile isSpaceChar).reverse.dropWhile isSpaceChar).reverse⟩

def digitsToNat : List Char → Nat → Option Nat
  | [], acc => some acc
  | c :: rest, acc =>
    if '0' ≤ c ∧ c ≤ '9' then digitsToNat rest (acc * 10 + (c.toNat - '0'.toNat)) else none

/-- Digit-string parse: `some n` exactly on non-empty all-digit strings.
This models Python's `int(s)` on the substrings relevant here (`int` also
tolerates surrounding whitespace and an explicit sign; such strings do not
occur as stored quote dates and are outside the model). -/
def parseNat (s : String) : Option Nat :=
  if s.data = [] then none else digitsToNat s.data 0

/-- `s.split(sep)` for a one-character separator, as in Python: `n`
separator occurrences yield `n + 1` (possibly empty) fields. -/
def splitOnChar (sep : Char) : List Char → List (List Char)
  | [] => [[]]
  | c :: rest =>
    let r := splitOnChar sep rest
    if c = sep then [] :: r
    else
      match r with
      | [] => [[c]]
      | hd :: tl => (c :: hd) :: tl

/-! ## Python `datetime.date` model (for the sync planner) -/

/-- Model of Python's `datetime.date`: a year/month/day triple.  Only values
satisfying `PyDate.Valid` correspond to constructible Python dates. -/
structure PyDate where
  year : Int
  month : Nat
  day : Nat
deriving DecidableEq, Repr

/-- Gregorian leap-year test, as `calendar.isleap` / `datetime` use it. -/
def isLeapYear (y : Int) : Bool :=
  (y % 4 == 0 && y % 100 != 0) || (y % 400 == 0)

/-- Number of days in a month of a given year. -/
def daysInMonth (y : Int) (m : Nat) : Nat :=
  if m = 2 then (if isLeapYear y then 29 else 28)
  else if m = 4 ∨ m = 6 ∨ m = 9 ∨ m = 11 then 30
  else 31

/-- The range of dates Python's `datetime.date` accepts
(`MINYEAR = 1`, `MAXYEAR = 9999`, month and day in range). -/
def PyDate.Valid (d : PyDate) : Prop :=
  1 ≤ d.year ∧ d.year ≤ 9999 ∧ 1 ≤ d.month ∧ d.month ≤ 12 ∧
    1 ≤ d.day ∧ d.day ≤ daysInMonth d.year d.month

instance (d : PyDate) : Decidable d.Valid := by
  unfold PyDate.Valid; infer_instance

/-- Strict comparison of dates (Python compares dates lexicographically by
`(year, month, day)`). -/
def PyDate.lt (a b : PyDate) : Prop :=
  a.year < b.year ∨ (a.year = b.year ∧
    (a.month < b.month ∨ (a.month = b.month ∧ a.day < b.day)))

instance : DecidableRel PyDate.lt := by
  unfold PyDate.lt; infer_instance

def PyDate.le (a b : PyDate) : Prop := ¬ PyDate.lt b a

instance : DecidableRel PyDate.le := by
  unfold PyDate.le; infer_instance

/-- The day after `d` (`d + timedelta(days=1)`). -/
def PyDate.next (d : PyDate) : PyDate :=
  if d.day < daysInMonth d.year d.month then ⟨d.year, d.month, d.day + 1⟩
  else if d.month < 12 then ⟨d.year, d.month + 1, 1⟩
  else ⟨d.year + 1, 1, 1⟩

/-- The day before `d` (`d - timedelta(days=1)`). -/
def PyDate.prev (d : PyDate) : PyDate :=
  if 1 < d.day then ⟨d.year, d.month, d.day - 1⟩
  else if 1 < d.month then ⟨d.year, d.month - 1, daysInMonth d.year (d.month - 1)⟩
  else ⟨d.year - 1, 12, 31⟩

/-- `d + timedelta(days = n)` for `n ≥ 0`. -/
def PyDate.addDays (d : PyDate) : Nat → PyDate
  | 0 => d
  | n + 1 => (d.addDays n).next

/-- `d - timedelta(days = n)` for `n ≥ 0`. -/
def PyDate.subDays (d : PyDate) : Nat → PyDate
  | 0 => d
  | n + 1 => (d.subDays n).prev

/-! ## Sync planner (`core/data_collector/stock/sync.py`) -/

/-- Model of the parse `y, m, d = s.split("-"); date(int(y), int(m), int(d))`
performed by the planner: returns `none` exactly when the Python code would
raise (wrong number of parts, non-numeric part, or out-of-range date). -/
def parseIsoDate (s : String) : Option PyDate :=
  match splitOnChar '-' s.data with
  | [ys, ms, ds] =>
    match parseNat ⟨ys⟩, parseNat ⟨ms⟩, parseNat ⟨ds⟩ with
    | some y, some m, some d =>
      let date : PyDate := ⟨(y : Int), m, d⟩
      if date.Valid then some date else none
    | _, _, _ => none
  | _ => none

/-- `_subtract_years(d, years)`: `d.replace(year = d.year - years)`, falling
back to `d - timedelta(days = 365 * years)` when the replaced date is invalid
(Feb 29 landing in a non-leap year). -/
def subtractYears (d : PyDate) (years : Nat) : PyDate :=
  let replaced : PyDate := ⟨d.year - years, d.month, d.day⟩
  if replaced.Valid then replaced else d.subDays (365 * years)

/-- `compute_backfill_start(today, latest_iso, window_days, full_backfill_years)`.
`Except.error ()` models the `ValueError` raised when `latest_iso` is present
but does not parse as a date. -/
def computeBackfillStart (today : PyDate) (latestIso : Option String)
    (windowDays : Nat) (fullBackfillYears : Nat := 0) : Except Unit PyDate :=
  match latestIso with
  | none =>
    if fullBackfillYears > 0 then .ok (subtractYears today fullBackfillYears)
    else .ok (today.subDays windowDays)
  | some s =>
    match parseIsoDate s with
    | none => .error ()
    | some latest =>
      let defaultStart := today.subDays windowDays
      -- Python `max(a, b)` returns `b` when `a < b`, else `a`.
      .ok (if PyDate.lt defaultStart latest.next then latest.next else defaultStart)

/-- One synchronization plan: a symbol together with its start date. -/
structure SyncPlan where
  symbol : String
  start : PyDate
deriving DecidableEq, Repr

/-- The body of `build_cn_sync_plans` for one symbol: either skips, appends a
plan, or propagates the exception from `compute_backfill_start`. -/
def cnSyncPlanStep (getLatestQuoteDate : String → Option String)
    (lastTradingDay today : PyDate) (windowDays fullBackfillYears : Nat)
    (initialOnly : Bool) (sym : String) : Except Unit (Option SyncPlan) :=
  let latest := getLatestQuoteDate sym
  if initialOnly ∧ latest.isSome then .ok none
  else
    -- Up-to-date check; a parse failure here is swallowed (`except: pass`).
    let upToDate : Bool :=
      match latest with
      | none => false
      | some s =>
        match parseIsoDate s with
        | none => false
        | some d => PyDate.le lastTradingDay d
    if upToDate then .ok none
    else
      match computeBackfillStart today latest windowDays fullBackfillYears with
      | .error e => .error e
      | .ok start =>
        if PyDate.le start today then .ok (some ⟨sym, start⟩) else .ok none

/-- `build_cn_sync_plans(symbols, get_latest_quote_date, last_trading_day,
today, window_days, full_backfill_years, initial_only)`. -/
def buildCnSyncPlans (symbols : List String)
    (getLatestQuoteDate : String → Option String)
    (lastTradingDay today : PyDate) (windowDays : Nat)
    (fullBackfillYears : Nat := 0) (initialOnly : Bool := false) :
    Except Unit (List SyncPlan) :=
  match symbols with
  | [] => .ok []
  | sym :: rest =>
    match cnSyncPlanStep getLatestQuoteDate lastTradingDay today windowDays
        fullBackfillYears initialOnly sym with
    | .error e => .error e
    | .ok plan? =>
      match buildCnSyncPlans rest getLatestQuoteDate lastTradingDay today
          windowDays fullBackfillYears initialOnly with
      | .error e => .error e
      | .ok plans => .ok (plan?.toList ++ plans)

/-! ## Score padding and the score index
(`core/data_collector/stock/financials.py`, `core/database/Company.py`)

Scores are measured in thousandths (`n : ℕ` stands for the score `n / 1000`),
which makes the `%.3f` fixed-point formatting of the source exact. -/

/-- Zero-padded most-significant-first decimal digits of `a`, for `a < 10^w`. -/
def padRec : Nat → Nat → List Char
  | 0, _ => []
  | w + 1, a => Nat.digitChar (a / 10 ^ w) :: padRec w (a % 10 ^ w)

/-- Fuel-bounded plain decimal digits (most significant first) of a nonzero
number; `fuel > number of digits` suffices. -/
def digitsAux : Nat → Nat → List Char
  | 0, _ => []
  | fuel + 1, n => if n = 0 then [] else digitsAux fuel (n / 10) ++ [Nat.digitChar (n % 10)]

/-- Plain decimal representation of a natural number. -/
def digitsStr (n : Nat) : List Char := if n = 0 then ['0'] else digitsAux (n + 1) n

/-- `"%0wd" % a` as used inside Python's fixed-width float formatting: the
number is zero-padded to `w` digits, or printed in full when it needs more. -/
def padNumFmt (w a : Nat) : List Char :=
  if a < 10 ^ w then padRec w a else digitsStr a

/-- `pad_score(score)` = `f"{score:09.3f}"`: total width 9, three decimals,
so five integer digits for scores below 100000.  The argument is the score in
thousandths. -/
def padScore (n : Nat) : String :=
  ⟨padNumFmt 5 (n / 1000) ++ '.' :: padNumFmt 3 (n % 1000)⟩

/-- The sort-key bound built by `Company.query_by_score`:
`f"{min_score:08.3f}#"` — total width 8, i.e. only four integer digits,
followed by `"#"`.  The argument is `min_score` in thousandths. -/
def queryScoreKey (n : Nat) : String :=
  ⟨padNumFmt 4 (n / 1000) ++ '.' :: (padNumFmt 3 (n % 1000) ++ ['#'])⟩

/-- Byte-wise lexicographic `≤` on character lists — the ordering DynamoDB
applies to string sort keys (all keys here are ASCII). -/
def lexLe : List Char → List Char → Bool
  | [], _ => true
  | _ :: _, [] => false
  | a :: as, b :: bs =>
    if a.val < b.val then true
    else if b.val < a.val then false
    else lexLe as bs

/-- Lexicographic `≤` on strings (the store's sort-key comparison). -/
def lexLeStr (s t : String) : Bool := lexLe s.data t.data

/-- A stable sort with respect to a boolean `le` (`le y x` = "y may stay
before x"): the model of Python's stable `sorted`.  Structural recursion so
that concrete evaluations reduce in the kernel. -/
def insertOrd {α : Type} (le : α → α → Bool) (x : α) : List α → List α
  | [] => [x]
  | y :: ys => if le y x then y :: insertOrd le x ys else x :: y :: ys

def sortBy {α : Type} (le : α → α → Bool) (l : List α) : List α :=
  l.foldl (fun acc x => insertOrd le x acc) []

/-- A stored company item (the fields built by `build_company_item`). -/
structure CompanyItem where
  pk : String
  gsi1pk : String
  gsi1sk : String
  symbol : String
  /-- score in thousandths -/
  score : Nat
deriving DecidableEq, Repr

/-- `build_company_item(row, default_score)`: single-row company item whose
score-index sort key is `pad_score(score) + "#" + symbol`. -/
def buildCompanyItem (symbolRaw : String) (defaultScore : Nat) : CompanyItem :=
  let symbol := strUpper (strStrip symbolRaw)
  { pk := symbol
    gsi1pk := "SCORE"
    gsi1sk := padScore defaultScore ++ "#" ++ symbol
    symbol := symbol
    score := defaultScore }

/-- `Company.query_by_score(min_score, limit)`: the store returns, in
ascending sort-key order, at most `limit` items of the `SCORE` partition
whose sort key is lexicographically `≥` the bound `f"{min_score:08.3f}#"`. -/
def queryByScore (stored : List CompanyItem) (minScore limit : Nat) :
    List CompanyItem :=
  (sortBy (fun a b => lexLe a.gsi1sk.data b.gsi1sk.data)
    (stored.filter fun it =>
      it.gsi1pk == "SCORE" && lexLe (queryScoreKey minScore).data it.gsi1sk.data)).take limit

/-! ## Float cells and key builders

`PyFloat` models the values a numeric frame cell can hold where the source
distinguishes NaN and the infinities; finite values carry an exact rational
(IEEE rounding is abstracted). -/

inductive PyFloat where
  | finite (q : ℚ)
  | nan
  | inf
  | ninf
deriving DecidableEq, Repr

/-- `pd.isna(v)` on a float value: true exactly on NaN. -/
def PyFloat.isna : PyFloat → Bool
  | .nan => true
  | _ => false

/-- The Python comparison `v > 0`: false on NaN and `-inf`, true on `+inf`. -/
def PyFloat.posB : PyFloat → Bool
  | .finite q => decide (0 < q)
  | .nan => false
  | .inf => true
  | .ninf => false

/-- `"#".join(p for p in parts if p is not None and p != "")` from
`database/keys.py` (`None` parts are modelled by omission). -/
def joinHash : List String → String
  | [] => ""
  | [s] => s
  | s :: rest => s ++ "#" ++ joinHash rest

def concatKeyParts (parts : List String) : String :=
  joinHash (parts.filter (fun p => p ≠ ""))

def makePkStock (symbol : String) : String := concatKeyParts ["STOCK", symbol]

def makeSkQuoteDate (dateIso : String) : String := concatKeyParts ["QUOTE", dateIso]

def makeGsi1pkSymbol (symbol : String) : String := concatKeyParts ["SYMBOL", symbol]

def makeGsi1skEntity (entity : String) (timestampIso : Option String) : String :=
  concatKeyParts ("ENTITY" :: entity :: timestampIso.toList)

/-! ## Quote upsert item construction
(`StockData.upsert_quotes_df` and `MarketData.upsert_quotes_df`)

One input row after date normalisation (rows whose date fails to parse are
dropped before item construction, so `dateIso` is the already-formatted ISO
day).  Absent frame cells are `none`. -/

structure QuoteRow where
  symbol : String
  dateIso : String
  openPx : Option PyFloat := none
  highPx : Option PyFloat := none
  lowPx : Option PyFloat := none
  closePx : Option PyFloat := none
  adjClose : Option PyFloat := none
  volume : Option PyFloat := none
  turnoverAmount : Option PyFloat := none
  turnoverRate : Option PyFloat := none
  vwap : Option PyFloat := none
  limitUp : Option PyFloat := none
  limitDown : Option PyFloat := none
  adjFactor : Option PyFloat := none
  isSuspended : Option Bool := none
  tradingStatus : Option String := none
  currency : Option String := none
  source : Option String := none
deriving DecidableEq, Repr

/-- Value of `Decimal(str(v))` for a float `v` that is not NaN: infinities
produce `Decimal("Infinity")` / `Decimal("-Infinity")` (no exception). -/
inductive DecimalVal where
  | fin (q : ℚ)
  | inf
  | ninf
deriving DecidableEq, Repr

/-- An attribute value of a persisted item. -/
inductive AttrVal where
  | dec (d : DecimalVal)
  | int (i : Int)
  | str (s : String)
  | boolV (b : Bool)
  | nullV
deriving DecidableEq, Repr

/-- `_opt_decimal(v)`: `None` and NaN give `None`; every other float value —
including the infinities — converts successfully via `Decimal(str(v))`. -/
def optDecimal : Option PyFloat → Option DecimalVal
  | none => none
  | some .nan => none
  | some .inf => some .inf
  | some .ninf => some .ninf
  | some (.finite q) => some (.fin q)

/-- `_opt_int(v)`: `None` and NaN give `None`; `int(float("inf"))` raises
`OverflowError`, which is swallowed to `None`; finite values truncate
toward zero. -/
def optInt : Option PyFloat → Option Int
  | none => none
  | some .nan => none
  | some .inf => none
  | some .ninf => none
  | some (.finite q) => some (q.num.tdiv q.den)

/-- Helper for conditional item attributes (`if v is not None: item[k] = v`). -/
def optDecField (name : String) (v : Option DecimalVal) : List (String × AttrVal) :=
  match v with
  | none => []
  | some d => [(name, .dec d)]

def optIntField (name : String) (v : Option Int) : List (String × AttrVal) :=
  match v with
  | none => []
  | some i => [(name, .int i)]

/-- The item `StockData.upsert_quotes_df` builds for one row.
`writeExtended` is `STOCKDATA_WRITE_EXTENDED_FIELDS` (default off). -/
def buildStockQuoteItem (writeExtended : Bool) (row : QuoteRow) :
    List (String × AttrVal) :=
  let symbol := strStrip row.symbol
  [("pk", .str (makePkStock symbol)),
   ("sk", .str (makeSkQuoteDate row.dateIso)),
   ("gsi1pk", .str (makeGsi1pkSymbol symbol)),
   ("gsi1sk", .str (makeGsi1skEntity "QUOTE" (some row.dateIso))),
   ("symbol", .str symbol),
   ("date", .str row.dateIso)]
  ++ optDecField "open" (optDecimal row.openPx)
  ++ optDecField "high" (optDecimal row.highPx)
  ++ optDecField "low" (optDecimal row.lowPx)
  ++ optDecField "close" (optDecimal row.closePx)
  ++ optDecField "adj_close" (optDecimal row.adjClose)
  ++ optIntField "volume" (optInt row.volume)
  ++ (if writeExtended then
        optDecField "turnover_amount" (optDecimal row.turnoverAmount)
        ++ optDecField "turnover_rate" (optDecimal row.turnoverRate)
        ++ optDecField "vwap" (optDecimal row.vwap)
        ++ optDecField "limit_up" (optDecimal row.limitUp)
        ++ optDecField "limit_down" (optDecimal row.limitDown)
        ++ (match row.isSuspended with
            | none => []
            | some b => [("is_suspended", .boolV b)])
        ++ (match row.tradingStatus with
            | none => []
            | some s => [("trading_status", .str s)])
        ++ optDecField "adj_factor" (optDecimal row.adjFactor)
      else [])

/-- The item `MarketData.upsert_quotes_df` builds for one row: `currency`
and `source` are always present (possibly null); the only conditional
numeric attributes are open/high/low/close, `adj_close` and `volume`. -/
def buildMarketQuoteItem (row : QuoteRow) : List (String × AttrVal) :=
  let symbol := strStrip row.symbol
  [("pk", .str (makePkStock symbol)),
   ("sk", .str (makeSkQuoteDate row.dateIso)),
   ("gsi1pk", .str (makeGsi1pkSymbol symbol)),
   ("gsi1sk", .str (makeGsi1skEntity "QUOTE" (some row.dateIso))),
   ("symbol", .str symbol),
   ("date", .str row.dateIso),
   ("currency", match row.currency with | none => .nullV | some s => .str s),
   ("source", match row.source with | none => .nullV | some s => .str s)]
  ++ optDecField "open" (optDecimal row.openPx)
  ++ optDecField "high" (optDecimal row.highPx)
  ++ optDecField "low" (optDecimal row.lowPx)
  ++ optDecField "close" (optDecimal row.closePx)
  ++ optDecField "adj_close" (optDecimal row.adjClose)
  ++ optIntField "volume" (optInt row.volume)

/-! ## Backtest engine (`core/backtest/engine.py`)

Price data is a panel: a list of `(date, snapshot)` groups, each snapshot a
list of `(symbol, row)` pairs and each row a list of `(column, value)` cells
(`PyFloat` values).  Portfolio bookkeeping is over `ℚ`.  Python `dict`s are
association lists in insertion order. -/

abbrev PriceRow := List (String × PyFloat)

abbrev PriceSnapshot := List (String × PriceRow)

/-- `dict.get(k)` on an association list. -/
def lookupA {α : Type} (k : String) : List (String × α) → Option α
  | [] => none
  | (k', v) :: rest => if k = k' then some v else lookupA k rest

/-- `dict[k] = v`: replace in place if the key exists, else append. -/
def updateA {α : Type} (l : List (String × α)) (k : String) (v : α) :
    List (String × α) :=
  match l with
  | [] => [(k, v)]
  | (k', v') :: rest => if k = k' then (k', v) :: rest else (k', v') :: updateA rest k v

/-- `del dict[k]` (removes the first occurrence of the key). -/
def eraseA {α : Type} (l : List (String × α)) (k : String) : List (String × α) :=
  match l with
  | [] => []
  | (k', v') :: rest => if k = k' then rest else (k', v') :: eraseA rest k

/-- `BacktestConfig` (the fields the modelled code paths read; `min_weight`,
`price_fields` and `fundamental_fields` only feed the data loading that is
replaced by the explicit panel argument). -/
structure BacktestConfig where
  startDate : PyDate
  endDate : PyDate
  initialCapital : ℚ := 1000000
  rebalanceFrequency : String := "weekly"
  maxPositions : Nat := 100
  slippageBps : ℚ := 0
  transactionCostBps : ℚ := 0
  priceField : String := "adj_close"
  fallbackPriceField : String := "close"

/-- `BacktestConfig.validate()` succeeds (no `BacktestError` raised). -/
def BacktestConfig.validateOk (c : BacktestConfig) : Prop :=
  c.startDate.le c.endDate ∧ 0 < c.initialCapital ∧ 0 < c.maxPositions ∧
    0 ≤ c.slippageBps ∧ 0 ≤ c.transactionCostBps ∧ c.rebalanceFrequency ≠ ""

instance (c : BacktestConfig) : Decidable c.validateOk := by
  unfold BacktestConfig.validateOk; infer_instance

def BacktestConfig.slippageFactor (c : BacktestConfig) : ℚ := c.slippageBps / 10000

def BacktestConfig.feeFactor (c : BacktestConfig) : ℚ := c.transactionCostBps / 10000

/-- The field-resolution part of `_resolve_price`: the configured price
field, falling back to the fallback field when missing or NaN. -/
def resolveRawPrice (sym : String) (snap : PriceSnapshot) (cfg : BacktestConfig) :
    Option PyFloat :=
  match lookupA sym snap with
  | none => none
  | some row =>
    match lookupA cfg.priceField row with
    | none => lookupA cfg.fallbackPriceField row
    | some v => if v.isna then lookupA cfg.fallbackPriceField row else some v

/-- `_resolve_price(symbol, price_snapshot, config)`: the resolved raw value
is unavailable when missing or NaN, and so when `float(price) > 0` fails
(note: `+inf` passes both the `pd.isna` check and the `> 0` check). -/
def resolvePrice (sym : String) (snap : PriceSnapshot) (cfg : BacktestConfig) :
    Option PyFloat :=
  match resolveRawPrice sym snap cfg with
  | none => none
  | some v => if v.isna then none else if v.posB then some v else none

/-- The finite projection of a resolved price used by the `ℚ`-valued
portfolio arithmetic.  On snapshots without `+inf` cells this is exactly the
source's resolved price (resolution never returns NaN or `-inf`). -/
def resolvePriceQ (sym : String) (snap : PriceSnapshot) (cfg : BacktestConfig) :
    Option ℚ :=
  match resolvePrice sym snap cfg with
  | some (.finite q) => some q
  | _ => none

/-- An open position (`Position`; the symbol is the key in the dict). -/
structure Position where
  quantity : ℚ
  avgPrice : ℚ
  entryDate : PyDate
deriving DecidableEq, Repr

/-- `Portfolio` state. -/
structure PortfolioState where
  cash : ℚ
  positions : List (String × Position)
  totalValue : ℚ
  lastPriceMap : List (String × ℚ)
deriving DecidableEq, Repr

/-- A freshly constructed `Portfolio(config)`. -/
def initPortfolio (cfg : BacktestConfig) : PortfolioState :=
  { cash := cfg.initialCapital, positions := [], totalValue := cfg.initialCapital,
    lastPriceMap := [] }

/-- `TradeRecord`. -/
structure TradeRecord where
  symbol : String
  entryDate : PyDate
  exitDate : PyDate
  quantity : ℚ
  entryPrice : ℚ
  exitPrice : ℚ
  profit : ℚ
  returnPct : ℚ
deriving DecidableEq, Repr

/-- `Portfolio.mark_to_market(price_snapshot)`, parameterised by the resolved
price map `priceOf` (the engine instantiates it with `resolvePriceQ`): builds
a fresh price map from current positions — falling back to the previous map —
and sets `total_value = cash + Σ qty · price`. -/
def mtmStep (priceOf : String → Option ℚ) (old : List (String × ℚ))
    (acc : List (String × ℚ) × ℚ) (sp : String × Position) :
    List (String × ℚ) × ℚ :=
  match (priceOf sp.1).orElse (fun _ => lookupA sp.1 old) with
  | none => acc
  | some p => (updateA acc.1 sp.1 p, acc.2 + sp.2.quantity * p)

def markToMarket (st : PortfolioState) (priceOf : String → Option ℚ) :
    PortfolioState :=
  let res := st.positions.foldl (mtmStep priceOf st.lastPriceMap) ([], 0)
  { st with lastPriceMap := res.1, totalValue := st.cash + res.2 }

/-- `_prepare_weights(target_weights, existing_symbols, max_positions)`:
drop `None` weights, clamp to `≥ 0`, rank descending (stable), keep the top
`max_positions`, then zero-pad every currently held symbol missing from the
selection. -/
def prepareWeights (targetWeights : List (String × Option ℚ))
    (existingSymbols : List String) (maxPositions : Nat) : List (String × ℚ) :=
  let weights := targetWeights.filterMap fun p => p.2.map fun w => (p.1, max w 0)
  let positive := sortBy (fun a b => decide (b.2 ≤ a.2)) weights
  let trimmed := positive.take maxPositions
  trimmed ++ (existingSymbols.filter fun s => lookupA s trimmed = none).map fun s => (s, 0)

/-- An order `(symbol, quantity, price)`. -/
abbrev Order := String × ℚ × ℚ

/-- The classification loop of `Portfolio.rebalance`: for each candidate
symbol with an available positive price, compare the desired quantity with
the current one and emit a sell or buy order.  Python iterates over a `set`
union whose order is unspecified; the model fixes the deterministic order
"target symbols first, then remaining held symbols" (all properties proved
below are independent of this order). -/
def ordersStep (positions : List (String × Position))
    (normalized : List (String × ℚ)) (priceOf : String → Option ℚ)
    (preTradeEquity eps : ℚ) (acc : List Order × List Order) (sym : String) :
    List Order × List Order :=
  let targetWeight := (lookupA sym normalized).getD 0
  match priceOf sym with
  | none => acc
  | some price =>
    if price ≤ 0 then acc
    else
      let currentQty := ((lookupA sym positions).map (·.quantity)).getD 0
      let desiredValue := targetWeight * preTradeEquity
      let desiredQty := desiredValue / price
      let deltaQty := desiredQty - currentQty
      if deltaQty < -eps then (acc.1 ++ [(sym, -deltaQty, price)], acc.2)
      else if deltaQty > eps then (acc.1, acc.2 ++ [(sym, deltaQty, price)])
      else acc

def computeOrders (positions : List (String × Position))
    (normalized : List (String × ℚ)) (priceOf : String → Option ℚ)
    (preTradeEquity eps : ℚ) : List Order × List Order :=
  let allSymbols := normalized.map (·.1) ++
    (positions.map (·.1)).filter fun s => lookupA s normalized = none
  allSymbols.foldl (ordersStep positions normalized priceOf preTradeEquity eps)
    ([], [])

/-- One iteration of the sell loop: free cash, shrink or delete the position,
and append a `TradeRecord` carrying the position's entry date. -/
def execSell (slippage fee eps : ℚ) (currentDate : PyDate)
    (acc : PortfolioState × List TradeRecord × ℚ) (ord : Order) :
    PortfolioState × List TradeRecord × ℚ :=
  let st := acc.1
  match lookupA ord.1 st.positions with
  | none => acc
  | some position =>
    if ord.2.1 ≤ eps then acc
    else
      let qty := min ord.2.1 position.quantity
      let effectivePrice := ord.2.2 * (1 - slippage)
      let grossProceeds := qty * effectivePrice
      let transactionCost := qty * ord.2.2 * fee
      let cashReceived := grossProceeds - transactionCost
      let costBasis := qty * position.avgPrice
      let profit := cashReceived - costBasis
      let returnPct := if costBasis > 0 then profit / costBasis else 0
      let newQty := position.quantity - qty
      let newPositions :=
        if newQty ≤ eps then eraseA st.positions ord.1
        else updateA st.positions ord.1 { position with quantity := newQty }
      ({ st with cash := st.cash + cashReceived, positions := newPositions },
       acc.2.1 ++ [{ symbol := ord.1, entryDate := position.entryDate,
                     exitDate := currentDate, quantity := qty,
                     entryPrice := position.avgPrice, exitPrice := ord.2.2,
                     profit := profit, returnPct := returnPct }],
       acc.2.2 + qty * ord.2.2)

/-- The estimated total cash needed for the buy orders. -/
def estimateBuyCost (slippage fee : ℚ) (buys : List Order) : ℚ :=
  buys.foldl (fun acc ord =>
    acc + ord.2.1 * (ord.2.2 * (1 + slippage)) + ord.2.1 * ord.2.2 * fee) 0

/-- Uniform scaling of buy quantities by `cash / estimated_cash_needed`. -/
def scaleBuys (scale : ℚ) (buys : List Order) : List Order :=
  buys.map fun ord => (ord.1, ord.2.1 * scale, ord.2.2)

/-- One iteration of the buy loop: skip degenerate quantities and buys that
would overrun the remaining cash by more than `1e-6`; otherwise update the
position (weighted-average entry price, entry date reset on fresh entries)
and pay the required cash. -/
def execBuy (slippage fee eps : ℚ) (currentDate : PyDate)
    (acc : PortfolioState × ℚ) (ord : Order) : PortfolioState × ℚ :=
  let st := acc.1
  if ord.2.1 ≤ eps then acc
  else
    let effectivePrice := ord.2.2 * (1 + slippage)
    let transactionCost := ord.2.1 * ord.2.2 * fee
    let cashRequired := ord.2.1 * effectivePrice + transactionCost
    if cashRequired > st.cash + 1 / 1000000 then acc
    else
      let position := (lookupA ord.1 st.positions).getD
        { quantity := 0, avgPrice := 0, entryDate := currentDate }
      let totalCost := position.quantity * position.avgPrice + cashRequired
      let newQty := position.quantity + ord.2.1
      let newPosition : Position :=
        if newQty > eps then
          { quantity := newQty, avgPrice := totalCost / newQty,
            entryDate := if newQty - ord.2.1 ≤ eps then currentDate
                         else position.entryDate }
        else { position with quantity := newQty }
      ({ st with positions := updateA st.positions ord.1 newPosition,
                 cash := st.cash - cashRequired },
       acc.2 + ord.2.1 * ord.2.2)

/-- `Portfolio.rebalance(target_weights, price_snapshot, current_date)`,
parameterised by the resolved price map.  Returns the new state, the closed
trades, and the turnover ratio. -/
def rebalance (cfg : BacktestConfig) (st : PortfolioState)
    (targetWeights : List (String × Option ℚ)) (priceOf : String → Option ℚ)
    (currentDate : PyDate) : PortfolioState × List TradeRecord × ℚ :=
  let preTradeEquity := st.totalValue
  if preTradeEquity ≤ 0 then (st, [], 0)
  else
    let normalized0 := prepareWeights targetWeights (st.positions.map (·.1))
      cfg.maxPositions
    let weightSum := (normalized0.map fun p => max p.2 0).sum
    let normalized :=
      if weightSum > 1 then normalized0.map fun p => (p.1, max p.2 0 * (1 / weightSum))
      else normalized0
    let slippage := cfg.slippageFactor
    let fee := cfg.feeFactor
    let eps : ℚ := 1 / 100000000
    let orders := computeOrders st.positions normalized priceOf preTradeEquity eps
    let sellRes := orders.1.foldl (execSell slippage fee eps currentDate) (st, [], 0)
    let estimated := estimateBuyCost slippage fee orders.2
    let buyOrders :=
      if estimated > sellRes.1.cash ∧ estimated > 0 then
        scaleBuys (sellRes.1.cash / estimated) orders.2
      else orders.2
    let buyRes := buyOrders.foldl (execBuy slippage fee eps currentDate)
      (sellRes.1, sellRes.2.2)
    (buyRes.1, sellRes.2.1, buyRes.2 / preTradeEquity)

/-! ## Universe resolution, rebalance schedule and `BacktestEngine.run` -/

/-- `str.lower()` restricted to ASCII. -/
def charLower (c : Char) : Char :=
  if 'A' ≤ c ∧ c ≤ 'Z' then Char.ofNat (c.toNat + 32) else c

def strLower (s : String) : String := ⟨s.data.map charLower⟩

/-- `list(dict.fromkeys(l))`: de-duplicate preserving first occurrences. -/
def dedupFirst {α : Type} [DecidableEq α] (l : List α) : List α :=
  l.foldl (fun acc s => if s ∈ acc then acc else acc ++ [s]) []

/-- `[str(sym).strip().upper() for sym in syms if str(sym).strip()]`. -/
def cleanSymbols (syms : List String) : List String :=
  syms.filterMap fun s =>
    let t := strStrip s
    if t = "" then none else some (strUpper t)

/-- `BacktestEngine._resolve_universe(universe)`: an explicit caller list is
normalised and de-duplicated; otherwise the provider's output (when a
provider is configured, modelled by its produced list) is treated the same
way; otherwise the universe is empty. -/
def resolveUniverse (callerUniverse : Option (List String))
    (providerOutput : Option (List String)) : List String :=
  match callerUniverse with
  | some u => dedupFirst (cleanSymbols u)
  | none =>
    match providerOutput with
    | none => []
    | some p => dedupFirst (cleanSymbols p)

/-- Days before the first of the month within the year. -/
def daysBeforeMonth (y : Int) (m : Nat) : Nat :=
  (List.range (m - 1)).foldl (fun acc k => acc + daysInMonth y (k + 1)) 0

/-- Proleptic Gregorian ordinal (`date.toordinal`): `0001-01-01 ↦ 1`. -/
def dateToOrd (d : PyDate) : Nat :=
  let yp := (d.year - 1).toNat
  365 * yp + yp / 4 + yp / 400 - yp / 100 + daysBeforeMonth d.year d.month + d.day

/-- `date.weekday()`: Monday = 0 … Sunday = 6. -/
def weekday (d : PyDate) : Nat := (dateToOrd d + 6) % 7

/-- The `W-FRI` resample label of a date: the Friday ending its week. -/
def weekFridayAnchor (d : PyDate) : PyDate := d.addDays ((11 - weekday d) % 7)

/-- The `M` (month-end) resample label of a date. -/
def monthEndAnchor (d : PyDate) : PyDate :=
  ⟨d.year, d.month, daysInMonth d.year d.month⟩

/-- `idx[::step]`. -/
def everyNth {α : Type} (l : List α) (step : Nat) : List α :=
  (l.enum.filter fun p => decide (p.1 % step = 0)).map (·.2)

/-- Map an anchor to the latest index date on or before it (falling back to
the first index date, as the source does for an empty eligible slice). -/
def lastOnOrBefore (dates : List PyDate) (anchor : PyDate) : PyDate :=
  (((dates.filter fun d => decide (d.le anchor)).getLast?).orElse
    (fun _ => dates.head?)).getD ⟨1, 1, 1⟩

/-- `BacktestEngine._compute_rebalance_dates(dates, frequency)`. -/
def computeRebalanceDates (dates : List PyDate) (frequency : String) :
    Except String (List PyDate) :=
  let freq := strLower frequency
  if freq = "daily" then .ok dates
  else
    let anchors : Except String (List PyDate) :=
      if freq = "weekly" then .ok (dedupFirst (dates.map weekFridayAnchor))
      else if freq = "monthly" then .ok (dedupFirst (dates.map monthEndAnchor))
      else
        match freq.data.getLast? with
        | some 'd' =>
          match parseNat ⟨freq.data.dropLast⟩ with
          | some step => .ok (everyNth dates (max step 1))
          | none => .error ("Unsupported rebalance frequency: " ++ frequency)
        | _ => .error ("Unsupported rebalance frequency: " ++ frequency)
    match anchors with
    | .error e => .error e
    | .ok as => .ok (dedupFirst (as.map fun anchor => lastOnOrBefore dates anchor))

/-- All rows of the panel carrying a given date (`price_history.xs(ts)`). -/
def snapshotAt (history : List (PyDate × PriceSnapshot)) (ts : PyDate) :
    PriceSnapshot :=
  (history.filter fun p => decide (p.1 = ts)).foldl (fun acc p => acc ++ p.2) []

/-- The modelled subset of `BacktestResult`: the fields the claims are about
(`annualized_return`, `volatility`, `sharpe_ratio`, drawdown and win-rate
analytics involve real powers and are not claimed). -/
structure BacktestResultM where
  equityCurve : List (PyDate × ℚ)
  dailyTurnover : List (PyDate × ℚ)
  totalReturn : ℚ
  numTrades : Nat
  trades : List TradeRecord
  endingCash : ℚ
  endingPositions : List (String × Position)
deriving DecidableEq, Repr

/-- A strategy's `on_rebalance`: the engine passes the current date, the
day's snapshot and the portfolio snapshot, and receives target weights. -/
abbrev StrategyFn := PyDate → PriceSnapshot → PortfolioState → List (String × Option ℚ)

/-- Accumulator of the daily event loop. -/
structure RunAcc where
  port : PortfolioState
  equity : List (PyDate × ℚ)
  turnover : List (PyDate × ℚ)
  trades : List TradeRecord

/-- The daily event loop of `BacktestEngine.run`: mark to market, rebalance
on scheduled dates (recording turnover and closed trades), mark to market
again, append the equity point. -/
def runLoop (cfg : BacktestConfig) (strategy : StrategyFn)
    (history : List (PyDate × PriceSnapshot)) (rebalanceDates : List PyDate) :
    List PyDate → RunAcc → RunAcc
  | [], acc => acc
  | ts :: rest, acc =>
    let snap := snapshotAt history ts
    let priceOf := fun sym => resolvePriceQ sym snap cfg
    let port1 := markToMarket acc.port priceOf
    let acc2 :=
      if ts ∈ rebalanceDates then
        let tw := strategy ts snap port1
        let r := rebalance cfg port1 tw priceOf ts
        { port := markToMarket r.1 priceOf,
          equity := acc.equity,
          turnover := acc.turnover ++ (if r.2.2 > 0 then [(ts, r.2.2)] else []),
          trades := acc.trades ++ r.2.1 }
      else { acc with port := port1 }
    runLoop cfg strategy history rebalanceDates rest
      { acc2 with equity := acc2.equity ++ [(ts, acc2.port.totalValue)] }

/-- `BacktestEngine.run`.  The price panel argument plays the role of the
provider result / override (already the engine's only data source once
loaded); errors are the `BacktestError`s the source raises.  The resolved
universe feeds the empty-universe check and the strategy context. -/
def run (cfg : BacktestConfig) (strategy : StrategyFn)
    (callerUniverse : Option (List String)) (providerOutput : Option (List String))
    (priceHistory : List (PyDate × PriceSnapshot)) :
    Except String BacktestResultM :=
  let resolvedUniverse := resolveUniverse callerUniverse providerOutput
  if resolvedUniverse = [] then
    .error "Universe is empty. Provide symbols or a universe provider."
  else
    let sortedHistory := sortBy (fun a b => decide (PyDate.le a.1 b.1)) priceHistory
    let windowed := sortedHistory.filter fun p =>
      decide (cfg.startDate.le p.1) && decide (p.1.le cfg.endDate)
    if windowed = [] then .error "No price data found within the requested window."
    else
      let columns := dedupFirst (windowed.foldl
        (fun acc p => acc ++ p.2.foldl (fun a r => a ++ r.2.map (·.1)) []) [])
      if cfg.priceField ∉ columns ∧ cfg.fallbackPriceField ∉ columns then
        .error "Requested price fields are not present in price history."
      else
        let dateIndex := dedupFirst (windowed.map (·.1))
        match computeRebalanceDates dateIndex cfg.rebalanceFrequency with
        | .error e => .error e
        | .ok rebalanceDates =>
          let final := runLoop cfg strategy windowed rebalanceDates dateIndex
            { port := initPortfolio cfg, equity := [], turnover := [], trades := [] }
          let equity := final.equity
          let totalReturn : ℚ :=
            match equity with
            | [] => 0
            | e0 :: _ =>
              if 1 < equity.length then ((equity.getLast?).getD e0).2 / e0.2 - 1 else 0
          .ok { equityCurve := equity, dailyTurnover := final.turnover,
                totalReturn := totalReturn, numTrades := final.trades.length,
                trades := final.trades, endingCash := final.port.cash,
                endingPositions := final.port.positions }

/-- One rebalance call in a chronological sequence: the date, the strategy's
target weights and the day's resolved prices. -/
structure RebalanceCall where
  date : PyDate
  weights : List (String × Option ℚ)
  priceOf : String → Option ℚ

/-- A chronological sequence of rebalances on a portfolio, each preceded by a
mark to market with the same day's prices (as the engine's event loop does),
collecting every `TradeRecord` produced. -/
def runRebalanceCalls (cfg : BacktestConfig) (st : PortfolioState) :
    List RebalanceCall → PortfolioState × List TradeRecord
  | [] => (st, [])
  | c :: rest =>
    let stM := markToMarket st c.priceOf
    let r := rebalance cfg stM c.weights c.priceOf c.date
    let next := runRebalanceCalls cfg r.1 rest
    (next.1, r.2.1 ++ next.2)

instance {ε α : Type} [DecidableEq ε] [DecidableEq α] : DecidableEq (Except ε α) := fun
  | .error e, .error e' =>
    if h : e = e' then .isTrue (by rw [h]) else .isFalse (by simp [h])
  | .error _, .ok _ => .isFalse (by simp)
  | .ok _, .error _ => .isFalse (by simp)
  | .ok a, .ok a' =>
    if h : a = a' then .isTrue (by rw [h]) else .isFalse (by simp [h])

/-! ## Order lemmas for dates -/

theorem PyDate.le_refl (d : PyDate) : d.le d := by
  unfold PyDate.le PyDate.lt; omega

theorem PyDate.le_of_lt {a b : PyDate} (h : PyDate.lt a b) : a.le b := by
  unfold PyDate.le PyDate.lt at *; omega

theorem PyDate.le_trans {a b c : PyDate} (h1 : a.le b) (h2 : b.le c) : a.le c := by
  unfold PyDate.le PyDate.lt at *; omega

/-! ## C5: `compute_backfill_start` -/

/-- C5 (amended): with no stored date, `compute_backfill_start` returns
`today - timedelta(days = window_days)` when `full_backfill_years = 0`
(hence exactly `today` only when `window_days = 0`) and
`today.replace(year = today.year - years)` (with the Feb-29 fallback) when
`years > 0`; with a parseable stored date it returns the later of
`today - window_days` and `latest + 1 day`. -/
theorem c5_backfill_start (today : PyDate) (windowDays years : Nat) :
    computeBackfillStart today none windowDays 0 = .ok (today.subDays windowDays) ∧
    (windowDays = 0 → computeBackfillStart today none windowDays 0 = .ok today) ∧
    (0 < years →
      computeBackfillStart today none windowDays years =
        .ok (subtractYears today years)) ∧
    (∀ s latest, parseIsoDate s = some latest →
      ∃ r, computeBackfillStart today (some s) windowDays years = .ok r ∧
        PyDate.le (today.subDays windowDays) r ∧ PyDate.le latest.next r ∧
        (r = today.subDays windowDays ∨ r = latest.next)) := by
  refine ⟨by simp [computeBackfillStart], ?_, ?_, ?_⟩
  · rintro rfl
    simp [computeBackfillStart, PyDate.subDays]
  · intro hy
    simp [computeBackfillStart, hy]
  · intro s latest hparse
    refine ⟨if PyDate.lt (today.subDays windowDays) latest.next then latest.next
            else today.subDays windowDays,
      by simp [computeBackfillStart, hparse], ?_, ?_, ?_⟩
    · split
      · exact PyDate.le_of_lt (by assumption)
      · exact PyDate.le_refl _
    · split
      · exact PyDate.le_refl _
      · assumption
    · split
      · right; rfl
      · left; rfl

/-- Witness for C5 at concrete inputs. -/
theorem c5_backfill_start_witness :
    computeBackfillStart ⟨2025, 9, 14⟩ none 0 0 = .ok ⟨2025, 9, 14⟩ ∧
    computeBackfillStart ⟨2025, 9, 14⟩ none 0 5 = .ok ⟨2020, 9, 14⟩ := by
  constructor
  · exact (c5_backfill_start ⟨2025, 9, 14⟩ 0 0).2.1 rfl
  · have h := (c5_backfill_start ⟨2025, 9, 14⟩ 0 5).2.2.1 (by decide)
    rw [h]
    decide

/-- C5 counterexample: with `window_days = 30` and `years = 0` the result is
`today - 30 days`, not `today`; and with a parseable but old stored date the
result is again `today - 30 days`, not `latest + 1 day`. -/
theorem c5_counterexample :
    computeBackfillStart ⟨2025, 9, 14⟩ none 30 0 = .ok ⟨2025, 8, 15⟩ ∧
    (⟨2025, 8, 15⟩ : PyDate) ≠ ⟨2025, 9, 14⟩ ∧
    parseIsoDate "2020-01-01" = some ⟨2020, 1, 1⟩ ∧
    computeBackfillStart ⟨2025, 9, 14⟩ (some "2020-01-01") 30 0 = .ok ⟨2025, 8, 15⟩ ∧
    (⟨2025, 8, 15⟩ : PyDate) ≠ PyDate.next ⟨2020, 1, 1⟩ := by decide

/-! ## C10: malformed stored dates make the planner raise -/

/-- C10: whenever some symbol's stored latest-date string is present but
unparseable, `build_cn_sync_plans` (with the default `initial_only = False`)
raises: the malformed string falls through the guarded up-to-date check but
is re-parsed unconditionally inside `compute_backfill_start`. -/
theorem c10_malformed_latest (syms : List String) (sym s : String)
    (getLatest : String → Option String) (lastTradingDay today : PyDate)
    (windowDays years : Nat) (hmem : sym ∈ syms)
    (hget : getLatest sym = some s) (hparse : parseIsoDate s = none) :
    buildCnSyncPlans syms getLatest lastTradingDay today windowDays years false =
      .error () := by
  induction syms with
  | nil => cases hmem
  | cons hd tl ih =>
    rcases List.mem_cons.mp hmem with rfl | htl
    · simp [buildCnSyncPlans, cnSyncPlanStep, hget, hparse, computeBackfillStart]
    · rw [buildCnSyncPlans]
      rcases hstep : cnSyncPlanStep getLatest lastTradingDay today windowDays
          years false hd with e | p
      · rfl
      · rw [ih htl]

/-- Witness for C10 at a concrete malformed string. -/
theorem c10_malformed_latest_witness :
    buildCnSyncPlans ["X"] (fun _ => some "garbage") ⟨2025, 9, 12⟩ ⟨2025, 9, 14⟩
      30 0 false = .error () :=
  c10_malformed_latest ["X"] "X" "garbage" (fun _ => some "garbage")
    ⟨2025, 9, 12⟩ ⟨2025, 9, 14⟩ 30 0 (by decide) rfl (by decide)

/-! ## C4: the padded score as an order embedding -/

theorem digitChar_lt_iff :
    ∀ a < 10, ∀ b < 10,
      ((Nat.digitChar a).val < (Nat.digitChar b).val ↔ a < b) := by decide

theorem padRec_length (w : Nat) : ∀ a, (padRec w a).length = w := by
  induction w with
  | zero => intro a; rfl
  | succ w ih => intro a; simp [padRec, ih]

theorem lexLe_cons (a b : Char) (as bs : List Char) :
    lexLe (a :: as) (b :: bs) =
      if a.val < b.val then true else if b.val < a.val then false else lexLe as bs := rfl

/-- With equal quotients, comparing remainders is comparing the numbers. -/
theorem mod_lt_iff_of_div_eq {K a b : Nat} (h : a / K = b / K) :
    (a % K < b % K) ↔ (a < b) := by
  have ea := Nat.div_add_mod a K
  have eb := Nat.div_add_mod b K
  constructor
  · intro hlt
    calc a = K * (a / K) + a % K := ea.symm
      _ < K * (b / K) + b % K := by rw [← h]; exact Nat.add_lt_add_left hlt _
      _ = b := eb
  · intro hlt
    by_contra hge
    have hge' : b % K ≤ a % K := Nat.le_of_not_lt hge
    have hba : b ≤ a := by
      calc b = K * (b / K) + b % K := eb.symm
        _ ≤ K * (a / K) + a % K := by rw [h]; exact Nat.add_le_add_left hge' _
        _ = a := ea
    exact absurd hlt (Nat.not_lt.mpr hba)

theorem lexLe_padRec (w : Nat) : ∀ a b, a < 10 ^ w → b < 10 ^ w → ∀ cs ds,
    lexLe (padRec w a ++ cs) (padRec w b ++ ds) =
      (if a < b then true else if b < a then false else lexLe cs ds) := by
  induction w with
  | zero =>
    intro a b ha hb cs ds
    have ha0 : a = 0 := by simpa using Nat.lt_one_iff.mp ha
    have hb0 : b = 0 := by simpa using Nat.lt_one_iff.mp hb
    subst ha0; subst hb0
    simp [padRec]
  | succ w ih =>
    intro a b ha hb cs ds
    have hKpos : 0 < 10 ^ w := Nat.pos_pow_of_pos w (by omega)
    have hsucc : (10 : Nat) ^ (w + 1) = 10 ^ w * 10 := Nat.pow_succ 10 w
    have hal : a / 10 ^ w < 10 := Nat.div_lt_of_lt_mul (hsucc ▸ ha)
    have hbl : b / 10 ^ w < 10 := Nat.div_lt_of_lt_mul (hsucc ▸ hb)
    have hamod : a % 10 ^ w < 10 ^ w := Nat.mod_lt _ hKpos
    have hbmod : b % 10 ^ w < 10 ^ w := Nat.mod_lt _ hKpos
    simp only [padRec, List.cons_append, lexLe_cons]
    rcases Nat.lt_trichotomy (a / 10 ^ w) (b / 10 ^ w) with h | h | h
    · have hval := (digitChar_lt_iff _ hal _ hbl).mpr h
      have hab : a < b := by
        by_contra hnab
        exact absurd (Nat.div_le_div_right (Nat.le_of_not_lt hnab))
          (Nat.not_le.mpr h)
      rw [if_pos hval, if_pos hab]
    · have hv1 : ¬ (Nat.digitChar (a / 10 ^ w)).val < (Nat.digitChar (b / 10 ^ w)).val :=
        fun hlt => absurd ((digitChar_lt_iff _ hal _ hbl).mp hlt) (by omega)
      have hv2 : ¬ (Nat.digitChar (b / 10 ^ w)).val < (Nat.digitChar (a / 10 ^ w)).val :=
        fun hlt => absurd ((digitChar_lt_iff _ hbl _ hal).mp hlt) (by omega)
      rw [if_neg hv1, if_neg hv2, ih _ _ hamod hbmod cs ds]
      simp only [mod_lt_iff_of_div_eq h, mod_lt_iff_of_div_eq h.symm]
    · have hval := (digitChar_lt_iff _ hbl _ hal).mpr h
      have hv1 : ¬ (Nat.digitChar (a / 10 ^ w)).val < (Nat.digitChar (b / 10 ^ w)).val :=
        Nat.lt_asymm hval
      have hba : b < a := by
        by_contra hnba
        exact absurd (Nat.div_le_div_right (Nat.le_of_not_lt hnba))
          (Nat.not_le.mpr h)
      have hab : ¬ a < b := Nat.lt_asymm hba
      rw [if_neg hv1, if_pos hval, if_neg hab, if_pos hba]

theorem padScore_le_iff (m n : Nat) (hm : m < 100000000) (hn : n < 100000000) :
    (lexLeStr (padScore m) (padScore n) = true) ↔ m ≤ n := by
  have h105 : (10 : Nat) ^ 5 = 100000 := by norm_num
  have h103 : (10 : Nat) ^ 3 = 1000 := by norm_num
  have hm5 : m / 1000 < 10 ^ 5 := by rw [h105]; omega
  have hn5 : n / 1000 < 10 ^ 5 := by rw [h105]; omega
  have hm3 : m % 1000 < 10 ^ 3 := by rw [h103]; omega
  have hn3 : n % 1000 < 10 ^ 3 := by rw [h103]; omega
  unfold lexLeStr padScore
  simp only [padNumFmt, if_pos hm5, if_pos hn5, if_pos hm3, if_pos hn3]
  rw [lexLe_padRec 5 _ _ hm5 hn5]
  have hdot : lexLe ('.' :: padRec 3 (m % 1000)) ('.' :: padRec 3 (n % 1000))
      = lexLe (padRec 3 (m % 1000) ++ []) (padRec 3 (n % 1000) ++ []) := by
    simp [lexLe_cons]
  split_ifs with h1 h2
  · simp only [true_iff]; omega
  · simp only [false_iff, Nat.not_le]; omega
  · rw [hdot, lexLe_padRec 3 _ _ hm3 hn3]
    split_ifs with h3 h4
    · simp only [true_iff]; omega
    · simp only [false_iff, Nat.not_le]; omega
    · simp only [lexLe, true_iff]; omega

/-- C4 (amended): for scores below `100000` (at most five integer digits;
scores here are in thousandths, so below `10^8`), `pad_score` yields a
fixed-width 9-character string and is an order embedding into lexicographic
string order.  Beyond that bound both properties fail. -/
theorem c4_pad_score_order_embedding (m n : Nat)
    (hm : m < 100000000) (hn : n < 100000000) :
    (padScore m).length = 9 ∧ (m ≤ n ↔ lexLeStr (padScore m) (padScore n) = true) := by
  constructor
  · have h105 : (10 : Nat) ^ 5 = 100000 := by norm_num
    have h103 : (10 : Nat) ^ 3 = 1000 := by norm_num
    have hm5 : m / 1000 < 10 ^ 5 := by rw [h105]; omega
    have hm3 : m % 1000 < 10 ^ 3 := by rw [h103]; omega
    show (padScore m).data.length = 9
    unfold padScore
    simp only [padNumFmt, if_pos hm5, if_pos hm3]
    simp [padRec_length]
  · exact (padScore_le_iff m n hm hn).symm

/-- Witness for C4 at concrete scores (0.000 and 1.500). -/
theorem c4_pad_score_order_embedding_witness :
    (padScore 0).length = 9 ∧
      (0 ≤ 1500 ↔ lexLeStr (padScore 0) (padScore 1500) = true) :=
  c4_pad_score_order_embedding 0 1500 (by norm_num) (by norm_num)

/-- C4 counterexample: at scores 99999.000 and 100000.000 the monotone
embedding fails (`99999 ≤ 100000` but `"99999.000" > "100000.000"`
lexicographically), and the padded string is no longer 9 characters wide. -/
theorem c4_counterexample :
    99999000 ≤ 100000000 ∧
    lexLeStr (padScore 99999000) (padScore 100000000) = false ∧
    (padScore 100000000).length ≠ 9 := by decide

/-! ## C3: the score-index query bound is narrower than the stored keys -/

/-- C3 evaluation: `build_company_item` stores the sort key with width-9
padding (`pad_score`), but `query_by_score` builds its lower bound with
width-8 padding (`f"{min_score:08.3f}#"`).  At the fifth character the stored
key holds a digit (`'0'` = 48) where the bound holds `'.'` (46), so every
width-9 key compares `≥` the bound: the query returns the company with score
0.000 although `min_score` is 0.500. -/
theorem c3_eval :
    buildCompanyItem "AAA" 0 ∈ queryByScore [buildCompanyItem "AAA" 0] 500 100 ∧
    (buildCompanyItem "AAA" 0).score < 500 := by decide

/-! ## C7: absent-not-zero persistence of optional quote attributes -/

/-- `v is not None and not pd.isna(v)`. -/
def presentNonNanPF : Option PyFloat → Bool
  | some x => !x.isna
  | none => false

/-- present and finite (survives `int(float(v))`). -/
def presentFinitePF : Option PyFloat → Bool
  | some (.finite _) => true
  | _ => false

theorem lookupA_append {α : Type} (k : String) (l₁ l₂ : List (String × α)) :
    lookupA k (l₁ ++ l₂) = ((lookupA k l₁).orElse fun _ => lookupA k l₂) := by
  induction l₁ with
  | nil => rfl
  | cons hd tl ih =>
    by_cases h : k = hd.1 <;> simp [lookupA, h, ih, Option.orElse]

theorem lookupA_optDecField_ne (k name : String) (v : Option DecimalVal)
    (h : k ≠ name) : lookupA k (optDecField name v) = none := by
  cases v <;> simp [optDecField, lookupA, h]

theorem lookupA_optIntField_ne (k name : String) (v : Option Int)
    (h : k ≠ name) : lookupA k (optIntField name v) = none := by
  cases v <;> simp [optIntField, lookupA, h]

theorem lookupA_optDecField_self (name : String) (v : Option DecimalVal) :
    lookupA name (optDecField name v) = v.map .dec := by
  cases v <;> simp [optDecField, lookupA]

theorem lookupA_optIntField_self (name : String) (v : Option Int) :
    lookupA name (optIntField name v) = v.map .int := by
  cases v <;> simp [optIntField, lookupA]

theorem optionMap_isSome {α β : Type} (f : α → β) (o : Option α) :
    (o.map f).isSome = o.isSome := by
  cases o <;> rfl

theorem orElse_none_right {α : Type} (o : Option α) (f : Unit → Option α)
    (h : f () = none) : o.orElse f = o := by
  cases o <;> simp [Option.orElse, h]

theorem orElse_none_left {α : Type} (f : Unit → Option α) :
    (none : Option α).orElse f = f () := rfl

theorem optDecimal_isSome (v : Option PyFloat) :
    (optDecimal v).isSome = presentNonNanPF v := by
  cases v with
  | none => rfl
  | some pf => cases pf <;> rfl

theorem optInt_isSome (v : Option PyFloat) :
    (optInt v).isSome = presentFinitePF v := by
  cases v with
  | none => rfl
  | some pf => cases pf <;> rfl

/-- C7 (amended): in the StockData upsert, `adj_close` is persisted iff the
source value is present and not NaN (infinities are persisted as decimal
infinities, not dropped); `volume` iff present and finite; the extended
attributes (`turnover_amount`, `turnover_rate`, `vwap`, `adj_factor`) iff
the `STOCKDATA_WRITE_EXTENDED_FIELDS` flag is on and the value is present
and not NaN.  In the MarketData upsert only `adj_close` and `volume` are
conditional numeric attributes; the extended ones never appear. -/
theorem c7_absent_not_zero (flag : Bool) (row : QuoteRow) :
    ((lookupA "adj_close" (buildStockQuoteItem flag row)).isSome
        = presentNonNanPF row.adjClose) ∧
    ((lookupA "volume" (buildStockQuoteItem flag row)).isSome
        = presentFinitePF row.volume) ∧
    ((lookupA "turnover_amount" (buildStockQuoteItem flag row)).isSome
        = (flag && presentNonNanPF row.turnoverAmount)) ∧
    ((lookupA "turnover_rate" (buildStockQuoteItem flag row)).isSome
        = (flag && presentNonNanPF row.turnoverRate)) ∧
    ((lookupA "vwap" (buildStockQuoteItem flag row)).isSome
        = (flag && presentNonNanPF row.vwap)) ∧
    ((lookupA "adj_factor" (buildStockQuoteItem flag row)).isSome
        = (flag && presentNonNanPF row.adjFactor)) ∧
    ((lookupA "adj_close" (buildMarketQuoteItem row)).isSome
        = presentNonNanPF row.adjClose) ∧
    ((lookupA "volume" (buildMarketQuoteItem row)).isSome
        = presentFinitePF row.volume) ∧
    ((lookupA "turnover_amount" (buildMarketQuoteItem row)).isSome = false) ∧
    ((lookupA "turnover_rate" (buildMarketQuoteItem row)).isSome = false) ∧
    ((lookupA "vwap" (buildMarketQuoteItem row)).isSome = false) ∧
    ((lookupA "adj_factor" (buildMarketQuoteItem row)).isSome = false) := by
  cases flag <;>
    cases hsusp : row.isSuspended <;> cases hts : row.tradingStatus <;>
      refine ⟨?_, ?_, ?_, ?_, ?_, ?_, ?_, ?_, ?_, ?_, ?_, ?_⟩ <;>
        simp [buildStockQuoteItem, buildMarketQuoteItem, lookupA_append,
          lookupA_optDecField_ne, lookupA_optDecField_self,
          lookupA_optIntField_ne, lookupA_optIntField_self,
          optDecimal_isSome, optInt_isSome, lookupA,
          optionMap_isSome, orElse_none_right, orElse_none_left, hsusp, hts]

/-- C7 counterexample: with the extended-fields flag off (the default), a
present *and finite* `turnover_amount` is not persisted; and a present but
*infinite* `adj_close` is persisted (as a decimal infinity). -/
theorem c7_counterexample :
    lookupA "turnover_amount"
        (buildStockQuoteItem false
          { symbol := "SH600519", dateIso := "2025-01-02",
            turnoverAmount := some (.finite 2), adjClose := some .inf }) = none ∧
    presentFinitePF (some (PyFloat.finite 2)) = true ∧
    lookupA "adj_close"
        (buildStockQuoteItem false
          { symbol := "SH600519", dateIso := "2025-01-02",
            turnoverAmount := some (.finite 2), adjClose := some .inf })
      = some (.dec .inf) := by decide

/-! ## C8: universe resolution and the empty-universe error -/

/-- C8 (amended): the caller-provided universe is normalised by stripping
whitespace, upper-casing, dropping empty entries and de-duplicating in
first-occurrence order, and an empty resolved universe makes `run` raise the
empty-universe `BacktestError`.  (The converse of the claimed "iff" fails:
`run` raises `BacktestError` for other reasons too, e.g. an empty price
window — see the counterexample.) -/
theorem c8_universe_resolution :
    resolveUniverse (some [" aapl ", "AAPL", "msft"]) none = ["AAPL", "MSFT"] ∧
    ∀ (cfg : BacktestConfig) (strategy : StrategyFn)
      (cu po : Option (List String)) (hist : List (PyDate × PriceSnapshot)),
      resolveUniverse cu po = [] →
        run cfg strategy cu po hist =
          .error "Universe is empty. Provide symbols or a universe provider." := by
  constructor
  · decide
  · intro cfg strategy cu po hist h
    simp [run, h]

/-- Witness for C8: a whitespace-only universe resolves to empty and `run`
raises the empty-universe error. -/
theorem c8_universe_resolution_witness :
    resolveUniverse (some ["  "]) none = [] ∧
    run { startDate := ⟨2023, 1, 2⟩, endDate := ⟨2023, 1, 6⟩ } (fun _ _ _ => [])
      (some ["  "]) none [] =
      .error "Universe is empty. Provide symbols or a universe provider." :=
  ⟨by decide, c8_universe_resolution.2 _ _ _ _ _ (by decide)⟩

/-- C8 counterexample to the claimed "iff": with the non-empty universe
`["AAA"]` but an empty price panel, `run` still raises a `BacktestError`
(the empty-window one), so "raises `BacktestError` only if the resolved
universe is empty" is false. -/
theorem c8_counterexample :
    resolveUniverse (some ["AAA"]) none = ["AAA"] ∧
    run { startDate := ⟨2023, 1, 2⟩, endDate := ⟨2023, 1, 6⟩ } (fun _ _ _ => [])
      (some ["AAA"]) none [] =
      .error "No price data found within the requested window." := by decide

/-! ## Association-list lemmas -/

theorem lookupA_mem {α : Type} {k : String} {v : α} :
    ∀ {l : List (String × α)}, lookupA k l = some v → (k, v) ∈ l := by
  intro l
  induction l with
  | nil => intro h; cases h
  | cons hd tl ih =>
    intro h
    rw [lookupA] at h
    by_cases hk : k = hd.1
    · rw [if_pos hk] at h
      injection h with hv
      rw [hk, ← hv]
      simp
    · rw [if_neg hk] at h
      exact List.mem_cons_of_mem _ (ih h)

theorem lookupA_updateA_self {α : Type} (k : String) (v : α) :
    ∀ (l : List (String × α)), lookupA k (updateA l k v) = some v := by
  intro l
  induction l with
  | nil => simp [updateA, lookupA]
  | cons hd tl ih =>
    by_cases hk : k = hd.1 <;> simp [updateA, lookupA, hk, ih]

theorem lookupA_updateA_ne {α : Type} (k k' : String) (v : α) (h : k ≠ k') :
    ∀ (l : List (String × α)), lookupA k (updateA l k' v) = lookupA k l := by
  intro l
  induction l with
  | nil => simp [updateA, lookupA, h]
  | cons hd tl ih =>
    by_cases hk' : k' = hd.1
    · subst hk'
      simp [updateA, lookupA, h]
    · by_cases hk : k = hd.1 <;> simp [updateA, lookupA, hk, hk', ih]

theorem mem_updateA {α : Type} {k : String} {v : α} {p : String × α} :
    ∀ {l : List (String × α)}, p ∈ updateA l k v → p = (k, v) ∨ p ∈ l := by
  intro l
  induction l with
  | nil => intro h; simp [updateA] at h; left; exact h
  | cons hd tl ih =>
    intro h
    by_cases hk : k = hd.1
    · rw [updateA, if_pos hk] at h
      rcases List.mem_cons.mp h with h | h
      · left; rw [h, ← hk]
      · right; exact List.mem_cons_of_mem _ h
    · rw [updateA, if_neg hk] at h
      rcases List.mem_cons.mp h with h | h
      · right; rw [h]; exact List.mem_cons_self _ _
      · rcases ih h with h | h
        · left; exact h
        · right; exact List.mem_cons_of_mem _ h

theorem mem_eraseA {α : Type} {k : String} {p : String × α} :
    ∀ {l : List (String × α)}, p ∈ eraseA l k → p ∈ l := by
  intro l
  induction l with
  | nil => intro h; cases h
  | cons hd tl ih =>
    intro h
    by_cases hk : k = hd.1
    · rw [eraseA, if_pos hk] at h
      exact List.mem_cons_of_mem _ h
    · rw [eraseA, if_neg hk] at h
      rcases List.mem_cons.mp h with h | h
      · rw [h]; exact List.mem_cons_self _ _
      · exact List.mem_cons_of_mem _ (ih h)

/-! ## C6: availability of resolved prices -/

/-- True exactly on finite float values. -/
def PyFloat.isFiniteB : PyFloat → Bool
  | .finite _ => true
  | _ => false

theorem markToMarket_positions (st : PortfolioState) (priceOf : String → Option ℚ) :
    (markToMarket st priceOf).positions = st.positions := rfl

theorem markToMarket_cash (st : PortfolioState) (priceOf : String → Option ℚ) :
    (markToMarket st priceOf).cash = st.cash := rfl

theorem mtmFold_lookup_const (priceOf : String → Option ℚ)
    (old : List (String × ℚ)) (sym : String)
    (hnone : (priceOf sym).orElse (fun _ => lookupA sym old) = none) :
    ∀ (ps : List (String × Position)) (acc : List (String × ℚ) × ℚ),
      lookupA sym (ps.foldl (mtmStep priceOf old) acc).1 = lookupA sym acc.1 := by
  intro ps
  induction ps with
  | nil => intro acc; rfl
  | cons hd tl ih =>
    intro acc
    rw [List.foldl_cons]
    by_cases hk : hd.1 = sym
    · rw [mtmStep, hk, hnone]
      exact ih acc
    · rcases hv : (priceOf hd.1).orElse (fun _ => lookupA hd.1 old) with _ | p
      · rw [mtmStep, hv]
        exact ih acc
      · rw [mtmStep, hv, ih]
        exact lookupA_updateA_ne sym hd.1 p (fun he => hk he.symm) acc.1

theorem mtmFold_lookup_set (priceOf : String → Option ℚ)
    (old : List (String × ℚ)) (sym : String) (q : ℚ)
    (hq : (priceOf sym).orElse (fun _ => lookupA sym old) = some q) :
    ∀ (ps : List (String × Position)) (acc : List (String × ℚ) × ℚ),
      lookupA sym acc.1 = some q →
      lookupA sym (ps.foldl (mtmStep priceOf old) acc).1 = some q := by
  intro ps
  induction ps with
  | nil => intro acc h; exact h
  | cons hd tl ih =>
    intro acc h
    rw [List.foldl_cons]
    by_cases hk : hd.1 = sym
    · rw [mtmStep, hk, hq]
      exact ih _ (lookupA_updateA_self sym q acc.1)
    · rcases hv : (priceOf hd.1).orElse (fun _ => lookupA hd.1 old) with _ | p
      · rw [mtmStep, hv]
        exact ih acc h
      · rw [mtmStep, hv]
        exact ih _ (by
          rw [lookupA_updateA_ne sym hd.1 p (fun he => hk he.symm) acc.1]
          exact h)

theorem mtmFold_lookup_reach (priceOf : String → Option ℚ)
    (old : List (String × ℚ)) (sym : String) (q : ℚ)
    (hq : (priceOf sym).orElse (fun _ => lookupA sym old) = some q) :
    ∀ (ps : List (String × Position)) (acc : List (String × ℚ) × ℚ),
      (∃ p, lookupA sym ps = some p) →
      lookupA sym (ps.foldl (mtmStep priceOf old) acc).1 = some q := by
  intro ps
  induction ps with
  | nil => rintro acc ⟨p, hp⟩; cases hp
  | cons hd tl ih =>
    rintro acc ⟨p, hp⟩
    rw [List.foldl_cons]
    by_cases hk : hd.1 = sym
    · rw [mtmStep, hk, hq]
      exact mtmFold_lookup_set priceOf old sym q hq tl _
        (lookupA_updateA_self sym q acc.1)
    · have hp' : lookupA sym tl = some p := by
        rw [lookupA, if_neg (fun he => hk he.symm)] at hp
        exact hp
      rcases hv : (priceOf hd.1).orElse (fun _ => lookupA hd.1 old) with _ | pr
      · rw [mtmStep, hv]
        exact ih acc ⟨p, hp'⟩
      · rw [mtmStep, hv]
        exact ih _ ⟨p, hp'⟩

theorem ordersFold_ne (priceOf : String → Option ℚ) (sym : String)
    (normalized : List (String × ℚ)) (positions : List (String × Position))
    (preEq eps : ℚ) (hp : priceOf sym = none) :
    ∀ (syms : List String) (acc : List Order × List Order),
      (∀ o ∈ acc.1, o.1 ≠ sym) → (∀ o ∈ acc.2, o.1 ≠ sym) →
      (∀ o ∈ (syms.foldl (ordersStep positions normalized priceOf preEq eps)
          acc).1, o.1 ≠ sym) ∧
      (∀ o ∈ (syms.foldl (ordersStep positions normalized priceOf preEq eps)
          acc).2, o.1 ≠ sym) := by
  intro syms
  induction syms with
  | nil => intro acc h1 h2; exact ⟨h1, h2⟩
  | cons hd tl ih =>
    intro acc h1 h2
    rw [List.foldl_cons]
    by_cases hk : hd = sym
    · rw [ordersStep, hk, hp]
      exact ih acc h1 h2
    · rcases hv : priceOf hd with _ | price
      · rw [ordersStep, hv]
        exact ih acc h1 h2
      · rw [ordersStep, hv]
        dsimp only
        by_cases hpr : price ≤ 0
        · rw [if_pos hpr]
          exact ih acc h1 h2
        · rw [if_neg hpr]
          split_ifs with hc1 hc2
          · refine ih _ (fun o ho => ?_) h2
            rcases List.mem_append.mp ho with ho | ho
            · exact h1 o ho
            · rcases List.mem_singleton.mp ho with rfl
              exact hk
          · refine ih _ h1 (fun o ho => ?_)
            rcases List.mem_append.mp ho with ho | ho
            · exact h2 o ho
            · rcases List.mem_singleton.mp ho with rfl
              exact hk
          · exact ih acc h1 h2

/-- C6 (amended): a resolved raw price value that is NaN or fails the
Python `> 0` test (non-positive finite values and `-inf`) is treated as
unavailable: `_resolve_price` returns `None`; `mark_to_market` then carries
the symbol's previous known price over unchanged (so the position is valued
at the last known price, or excluded when none exists); and `rebalance`
generates no sell or buy order for that symbol.  `+inf`, by contrast, is
accepted as an available price (see the counterexample). -/
theorem c6_price_availability (cfg : BacktestConfig) (snap : PriceSnapshot)
    (sym : String) (v : PyFloat)
    (hraw : resolveRawPrice sym snap cfg = some v)
    (hbad : v.isna = true ∨ v.posB = false) :
    resolvePrice sym snap cfg = none ∧
    resolvePriceQ sym snap cfg = none ∧
    (∀ st : PortfolioState, (∃ p, lookupA sym st.positions = some p) →
      lookupA sym (markToMarket st fun s => resolvePriceQ s snap cfg).lastPriceMap
        = lookupA sym st.lastPriceMap) ∧
    (∀ (positions : List (String × Position)) (normalized : List (String × ℚ))
        (preEq eps : ℚ),
      (∀ o ∈ (computeOrders positions normalized
          (fun s => resolvePriceQ s snap cfg) preEq eps).1, o.1 ≠ sym) ∧
      (∀ o ∈ (computeOrders positions normalized
          (fun s => resolvePriceQ s snap cfg) preEq eps).2, o.1 ≠ sym)) := by
  have h1 : resolvePrice sym snap cfg = none := by
    rcases hbad with h | h
    · simp [resolvePrice, hraw, h]
    · cases hna : v.isna
      · simp [resolvePrice, hraw, hna, h]
      · simp [resolvePrice, hraw, hna]
  have h2 : resolvePriceQ sym snap cfg = none := by
    simp [resolvePriceQ, h1]
  refine ⟨h1, h2, ?_, ?_⟩
  · rintro st ⟨p, hp⟩
    rcases hold : lookupA sym st.lastPriceMap with _ | q
    · have hno : ((fun s => resolvePriceQ s snap cfg) sym).orElse
          (fun _ => lookupA sym st.lastPriceMap) = none := by
        simp [h2, hold, Option.orElse]
      exact mtmFold_lookup_const (fun s => resolvePriceQ s snap cfg)
        st.lastPriceMap sym hno st.positions ([], 0)
    · have hq : ((fun s => resolvePriceQ s snap cfg) sym).orElse
          (fun _ => lookupA sym st.lastPriceMap) = some q := by
        simp [h2, hold, Option.orElse]
      exact mtmFold_lookup_reach (fun s => resolvePriceQ s snap cfg)
        st.lastPriceMap sym q hq st.positions ([], 0) ⟨p, hp⟩
  · intro positions normalized preEq eps
    exact ordersFold_ne (fun s => resolvePriceQ s snap cfg) sym normalized
      positions preEq eps h2 _ ([], []) (by simp) (by simp)

/-- Witness for C6 at a concrete negative close: `-1` is unavailable. -/
theorem c6_price_availability_witness :
    resolveRawPrice "AAA" [("AAA", [("adj_close", PyFloat.finite (-1))])]
      { startDate := ⟨2023, 1, 2⟩, endDate := ⟨2023, 1, 2⟩ } = some (.finite (-1)) ∧
    resolvePrice "AAA" [("AAA", [("adj_close", PyFloat.finite (-1))])]
      { startDate := ⟨2023, 1, 2⟩, endDate := ⟨2023, 1, 2⟩ } = none := by
  have hraw : resolveRawPrice "AAA" [("AAA", [("adj_close", PyFloat.finite (-1))])]
      { startDate := ⟨2023, 1, 2⟩, endDate := ⟨2023, 1, 2⟩ } = some (.finite (-1)) := rfl
  have hbad : (PyFloat.finite (-1)).isna = true ∨ (PyFloat.finite (-1)).posB = false :=
    Or.inr (by norm_num [PyFloat.posB])
  exact ⟨hraw, (c6_price_availability _ _ "AAA" _ hraw hbad).1⟩

/-- C6 counterexample: a `+inf` cell passes both the `pd.isna` check and the
`> 0` check, so `_resolve_price` returns it as an available price although it
is not finite — refuting "non-finite values are treated as unavailable". -/
theorem c6_counterexample :
    resolvePrice "AAA" [("AAA", [("adj_close", PyFloat.inf)])]
      { startDate := ⟨2023, 1, 2⟩, endDate := ⟨2023, 1, 2⟩ } = some PyFloat.inf ∧
    PyFloat.inf.isFiniteB = false := by decide

/-! ## C2: cash solvency of `rebalance` -/

theorem ordersFold_prices_pos (positions : List (String × Position))
    (normalized : List (String × ℚ)) (priceOf : String → Option ℚ)
    (preEq eps : ℚ) :
    ∀ (syms : List String) (acc : List Order × List Order),
      (∀ o ∈ acc.1, 0 < o.2.2) → (∀ o ∈ acc.2, 0 < o.2.2) →
      (∀ o ∈ (syms.foldl (ordersStep positions normalized priceOf preEq eps)
          acc).1, 0 < o.2.2) ∧
      (∀ o ∈ (syms.foldl (ordersStep positions normalized priceOf preEq eps)
          acc).2, 0 < o.2.2) := by
  intro syms
  induction syms with
  | nil => intro acc h1 h2; exact ⟨h1, h2⟩
  | cons hd tl ih =>
    intro acc h1 h2
    rw [List.foldl_cons]
    rcases hv : priceOf hd with _ | price
    · rw [ordersStep, hv]
      exact ih acc h1 h2
    · rw [ordersStep, hv]
      dsimp only
      by_cases hpr : price ≤ 0
      · rw [if_pos hpr]
        exact ih acc h1 h2
      · rw [if_neg hpr]
        split_ifs with hc1 hc2
        · refine ih _ (fun o ho => ?_) h2
          rcases List.mem_append.mp ho with ho | ho
          · exact h1 o ho
          · rcases List.mem_singleton.mp ho with rfl
            exact not_le.mp hpr
        · refine ih _ h1 (fun o ho => ?_)
          rcases List.mem_append.mp ho with ho | ho
          · exact h2 o ho
          · rcases List.mem_singleton.mp ho with rfl
            exact not_le.mp hpr
        · exact ih acc h1 h2

theorem computeOrders_prices_pos (positions : List (String × Position))
    (normalized : List (String × ℚ)) (priceOf : String → Option ℚ)
    (preEq eps : ℚ) :
    (∀ o ∈ (computeOrders positions normalized priceOf preEq eps).1, 0 < o.2.2) ∧
    (∀ o ∈ (computeOrders positions normalized priceOf preEq eps).2, 0 < o.2.2) :=
  ordersFold_prices_pos positions normalized priceOf preEq eps _ ([], [])
    (by simp) (by simp)

theorem execSell_step_mono (slippage fee eps : ℚ) (d : PyDate)
    (hsf : slippage + fee ≤ 1) (heps : 0 ≤ eps)
    (acc : PortfolioState × List TradeRecord × ℚ) (ord : Order)
    (hord : 0 < ord.2.2)
    (hpos : ∀ sp ∈ acc.1.positions, 0 ≤ sp.2.quantity) :
    acc.1.cash ≤ (execSell slippage fee eps d acc ord).1.cash ∧
    ∀ sp ∈ (execSell slippage fee eps d acc ord).1.positions, 0 ≤ sp.2.quantity := by
  simp only [execSell]
  rcases hl : lookupA ord.1 acc.1.positions with _ | position
  · exact ⟨le_refl _, hpos⟩
  · try dsimp only
    by_cases hq : ord.2.1 ≤ eps
    · rw [if_pos hq]
      exact ⟨le_refl _, hpos⟩
    · rw [if_neg hq]
      try dsimp only
      have hqty0 : 0 ≤ min ord.2.1 position.quantity :=
        le_min (le_of_lt (lt_of_le_of_lt heps (not_le.mp hq)))
          (hpos _ (lookupA_mem hl))
      constructor
      · have heq : min ord.2.1 position.quantity * (ord.2.2 * (1 - slippage))
            - min ord.2.1 position.quantity * ord.2.2 * fee
            = min ord.2.1 position.quantity * ord.2.2 * (1 - slippage - fee) := by
          ring
        have hrecv : 0 ≤ min ord.2.1 position.quantity * (ord.2.2 * (1 - slippage))
            - min ord.2.1 position.quantity * ord.2.2 * fee := by
          rw [heq]
          exact mul_nonneg (mul_nonneg hqty0 (le_of_lt hord)) (by linarith)
        linarith
      · intro sp hsp
        by_cases hnq : position.quantity - min ord.2.1 position.quantity ≤ eps
        · rw [if_pos hnq] at hsp
          exact hpos _ (mem_eraseA hsp)
        · rw [if_neg hnq] at hsp
          rcases mem_updateA hsp with h | h
          · rw [h]
            have := min_le_right ord.2.1 position.quantity
            try dsimp only
            linarith
          · exact hpos _ h

theorem sellFold_cash_mono (slippage fee eps : ℚ) (d : PyDate)
    (hsf : slippage + fee ≤ 1) (heps : 0 ≤ eps) :
    ∀ (orders : List Order) (acc : PortfolioState × List TradeRecord × ℚ),
      (∀ o ∈ orders, 0 < o.2.2) →
      (∀ sp ∈ acc.1.positions, 0 ≤ sp.2.quantity) →
      acc.1.cash ≤ (orders.foldl (execSell slippage fee eps d) acc).1.cash ∧
      ∀ sp ∈ (orders.foldl (execSell slippage fee eps d) acc).1.positions,
        0 ≤ sp.2.quantity := by
  intro orders
  induction orders with
  | nil => intro acc _ hpos; exact ⟨le_refl _, hpos⟩
  | cons hd tl ih =>
    intro acc hords hpos
    rw [List.foldl_cons]
    have hstep := execSell_step_mono slippage fee eps d hsf heps acc hd
      (hords hd (List.mem_cons_self _ _)) hpos
    have hrest := ih (execSell slippage fee eps d acc hd)
      (fun o ho => hords o (List.mem_cons_of_mem _ ho)) hstep.2
    exact ⟨le_trans hstep.1 hrest.1, hrest.2⟩

theorem execBuy_step_lb (slippage fee eps : ℚ) (d : PyDate)
    (acc : PortfolioState × ℚ) (ord : Order)
    (h : -(1/1000000) ≤ acc.1.cash) :
    -(1/1000000) ≤ (execBuy slippage fee eps d acc ord).1.cash := by
  simp only [execBuy]
  by_cases hq : ord.2.1 ≤ eps
  · rw [if_pos hq]
    exact h
  · rw [if_neg hq]
    try dsimp only
    by_cases hc : ord.2.1 * (ord.2.2 * (1 + slippage)) + ord.2.1 * ord.2.2 * fee
        > acc.1.cash + 1 / 1000000
    · rw [if_pos hc]
      exact h
    · rw [if_neg hc]
      push_neg at hc
      try dsimp only
      linarith

theorem buyFold_cash_lb (slippage fee eps : ℚ) (d : PyDate) :
    ∀ (orders : List Order) (acc : PortfolioState × ℚ),
      -(1/1000000) ≤ acc.1.cash →
      -(1/1000000) ≤ (orders.foldl (execBuy slippage fee eps d) acc).1.cash := by
  intro orders
  induction orders with
  | nil => intro acc h; exact h
  | cons hd tl ih =>
    intro acc h
    rw [List.foldl_cons]
    exact ih _ (execBuy_step_lb slippage fee eps d acc hd h)

/-- C2 (amended): provided `slippage_bps + transaction_cost_bps ≤ 10000`
(so that selling cannot consume cash — `validate()` does not enforce this),
for every well-formed portfolio state with `cash ≥ 0` and nonnegative
position quantities, and every target-weight mapping whose clamped weights
sum to at most 1, the cash balance after `rebalance` is `≥ -1e-6`; moreover
any individual buy whose required cash exceeds the remaining cash by more
than `1e-6` is skipped, leaving the state unchanged. -/
theorem c2_cash_solvency (cfg : BacktestConfig) (st : PortfolioState)
    (targetWeights : List (String × Option ℚ)) (priceOf : String → Option ℚ)
    (d : PyDate)
    (hvalid : cfg.validateOk)
    (hcost : cfg.slippageBps + cfg.transactionCostBps ≤ 10000)
    (hcash : 0 ≤ st.cash)
    (hq : ∀ sp ∈ st.positions, 0 ≤ sp.2.quantity)
    (hw : ((prepareWeights targetWeights (st.positions.map (·.1))
        cfg.maxPositions).map fun p => max p.2 0).sum ≤ 1) :
    -(1/1000000) ≤ (rebalance cfg st targetWeights priceOf d).1.cash ∧
    ∀ (acc : PortfolioState × ℚ) (ord : Order),
      acc.1.cash + 1 / 1000000 <
        ord.2.1 * (ord.2.2 * (1 + cfg.slippageFactor)) +
          ord.2.1 * ord.2.2 * cfg.feeFactor →
      execBuy cfg.slippageFactor cfg.feeFactor (1/100000000) d acc ord = acc := by
  have hsf : cfg.slippageFactor + cfg.feeFactor ≤ 1 := by
    unfold BacktestConfig.slippageFactor BacktestConfig.feeFactor
    rw [div_add_div_same, div_le_one (by norm_num : (0:ℚ) < 10000)]
    exact hcost
  constructor
  · rw [rebalance]
    by_cases hpe : st.totalValue ≤ 0
    · rw [if_pos hpe]
      linarith
    · rw [if_neg hpe]
      try dsimp only
      apply buyFold_cash_lb
      refine le_trans (by norm_num : -(1/1000000 : ℚ) ≤ 0) (le_trans hcash ?_)
      exact (sellFold_cash_mono cfg.slippageFactor cfg.feeFactor (1/100000000) d
        hsf (by norm_num) _ (st, [], 0)
        (computeOrders_prices_pos _ _ _ _ _).1 hq).1
  · intro acc ord h
    simp only [execBuy]
    by_cases hq' : ord.2.1 ≤ 1/100000000
    · rw [if_pos hq']
    · rw [if_neg hq']
      try dsimp only
      rw [if_pos (by linarith)]

/-- Witness for C2: a fresh portfolio with 10 bps slippage and 5 bps fees. -/
theorem c2_cash_solvency_witness :
    BacktestConfig.validateOk
      { startDate := ⟨2023, 1, 2⟩, endDate := ⟨2023, 1, 6⟩,
        slippageBps := 10, transactionCostBps := 5 } ∧
    -(1/1000000) ≤ (rebalance
      { startDate := ⟨2023, 1, 2⟩, endDate := ⟨2023, 1, 6⟩,
        slippageBps := 10, transactionCostBps := 5 }
      (initPortfolio
        { startDate := ⟨2023, 1, 2⟩, endDate := ⟨2023, 1, 6⟩,
          slippageBps := 10, transactionCostBps := 5 })
      [("AAA", some 1)] (fun _ => some 10) ⟨2023, 1, 2⟩).1.cash := by
  constructor
  · exact ⟨by decide, by norm_num, by norm_num, by norm_num, by norm_num, by decide⟩
  · exact (c2_cash_solvency _ _ _ _ _
      ⟨by decide, by norm_num, by norm_num, by norm_num, by norm_num, by decide⟩
      (by norm_num) (by norm_num [initPortfolio])
      (by simp [initPortfolio])
      (by simp [initPortfolio, prepareWeights, sortBy, insertOrd, lookupA])).1

/-- C2 counterexample to the claim as stated: `validate()` does not bound the
cost parameters above, so with 20000 bps (200%) slippage a sell executes at a
negative effective price; starting from `cash = 0` and one 100-share
position, an empty target (clamped weight sum 0 ≤ 1) drives the cash to
`-1000`, far below `-1e-6`. -/
theorem c2_counterexample :
    BacktestConfig.validateOk
      { startDate := ⟨2023, 1, 2⟩, endDate := ⟨2023, 1, 6⟩, slippageBps := 20000 } ∧
    ((0 : ℚ) ≤ 0) ∧
    ((prepareWeights []
        ([("AAA", (⟨100, 10, ⟨2023, 1, 2⟩⟩ : Position))].map (·.1)) 100).map
      fun p => max p.2 0).sum ≤ 1 ∧
    (rebalance
      { startDate := ⟨2023, 1, 2⟩, endDate := ⟨2023, 1, 6⟩, slippageBps := 20000 }
      { cash := 0, positions := [("AAA", ⟨100, 10, ⟨2023, 1, 2⟩⟩)], totalValue := 1000,
        lastPriceMap := [("AAA", 10)] }
      [] (fun s => if s = "AAA" then some 10 else none) ⟨2023, 1, 3⟩).1.cash
      < -(1/1000000) := by
  refine ⟨⟨by decide, by norm_num, by norm_num, by norm_num, by norm_num, by decide⟩,
    le_refl 0, by simp [prepareWeights, sortBy, insertOrd, lookupA], ?_⟩
  have hcash : (rebalance
      { startDate := ⟨2023, 1, 2⟩, endDate := ⟨2023, 1, 6⟩, slippageBps := 20000 }
      { cash := 0, positions := [("AAA", ⟨100, 10, ⟨2023, 1, 2⟩⟩)], totalValue := 1000,
        lastPriceMap := [("AAA", 10)] }
      [] (fun s => if s = "AAA" then some 10 else none) ⟨2023, 1, 3⟩).1.cash = -1000 := by
    try simp +decide [rebalance, prepareWeights, sortBy, insertOrd, computeOrders,
      ordersStep, execSell, execBuy, estimateBuyCost, scaleBuys, lookupA, updateA,
      eraseA, BacktestConfig.slippageFactor, BacktestConfig.feeFactor]
    try norm_num
    try simp +decide [rebalance, prepareWeights, sortBy, insertOrd, computeOrders,
      ordersStep, execSell, execBuy, estimateBuyCost, scaleBuys, lookupA, updateA,
      eraseA, BacktestConfig.slippageFactor, BacktestConfig.feeFactor]
    try norm_num
  rw [hcash]
  norm_num

/-! ## C9: well-formedness of trade records -/

/-- Well-formed positions at date `d`: every held quantity exceeds the
engine's `eps` and every entry date is on or before `d`.  This holds for
every portfolio reachable by chronological rebalances. -/
def WfPos (eps : ℚ) (positions : List (String × Position)) (d : PyDate) : Prop :=
  ∀ sp ∈ positions, eps < sp.2.quantity ∧ PyDate.le sp.2.entryDate d

theorem wfPos_mono {eps : ℚ} {ps : List (String × Position)} {d d' : PyDate}
    (h : WfPos eps ps d) (hdd : PyDate.le d d') : WfPos eps ps d' :=
  fun sp hsp => ⟨(h sp hsp).1, PyDate.le_trans (h sp hsp).2 hdd⟩

theorem execSell_step_wf (slippage fee eps : ℚ) (d : PyDate) (heps : 0 ≤ eps)
    (acc : PortfolioState × List TradeRecord × ℚ) (ord : Order)
    (hwf : WfPos eps acc.1.positions d)
    (htr : ∀ t ∈ acc.2.1, PyDate.le t.entryDate t.exitDate ∧ 0 < t.quantity) :
    WfPos eps (execSell slippage fee eps d acc ord).1.positions d ∧
    ∀ t ∈ (execSell slippage fee eps d acc ord).2.1,
      PyDate.le t.entryDate t.exitDate ∧ 0 < t.quantity := by
  simp only [execSell]
  rcases hl : lookupA ord.1 acc.1.positions with _ | position
  · exact ⟨hwf, htr⟩
  · try dsimp only
    by_cases hq : ord.2.1 ≤ eps
    · rw [if_pos hq]
      exact ⟨hwf, htr⟩
    · rw [if_neg hq]
      have hmem := hwf _ (lookupA_mem hl)
      constructor
      · intro sp hsp
        try dsimp only at hsp
        by_cases hnq : position.quantity - min ord.2.1 position.quantity ≤ eps
        · rw [if_pos hnq] at hsp
          exact hwf _ (mem_eraseA hsp)
        · rw [if_neg hnq] at hsp
          rcases mem_updateA hsp with h | h
          · rw [h]
            exact ⟨not_le.mp hnq, hmem.2⟩
          · exact hwf _ h
      · intro t ht
        try dsimp only at ht
        rcases List.mem_append.mp ht with ht | ht
        · exact htr t ht
        · rcases List.mem_singleton.mp ht with rfl
          refine ⟨hmem.2, ?_⟩
          exact lt_of_le_of_lt heps (lt_min (not_le.mp hq) hmem.1)

theorem sellFold_wf (slippage fee eps : ℚ) (d : PyDate) (heps : 0 ≤ eps) :
    ∀ (orders : List Order) (acc : PortfolioState × List TradeRecord × ℚ),
      WfPos eps acc.1.positions d →
      (∀ t ∈ acc.2.1, PyDate.le t.entryDate t.exitDate ∧ 0 < t.quantity) →
      WfPos eps (orders.foldl (execSell slippage fee eps d) acc).1.positions d ∧
      ∀ t ∈ (orders.foldl (execSell slippage fee eps d) acc).2.1,
        PyDate.le t.entryDate t.exitDate ∧ 0 < t.quantity := by
  intro orders
  induction orders with
  | nil => intro acc hwf htr; exact ⟨hwf, htr⟩
  | cons hd tl ih =>
    intro acc hwf htr
    rw [List.foldl_cons]
    have hstep := execSell_step_wf slippage fee eps d heps acc hd hwf htr
    exact ih _ hstep.1 hstep.2

theorem execBuy_step_wf (slippage fee eps : ℚ) (d : PyDate) (heps : 0 ≤ eps)
    (acc : PortfolioState × ℚ) (ord : Order)
    (hwf : WfPos eps acc.1.positions d) :
    WfPos eps (execBuy slippage fee eps d acc ord).1.positions d := by
  simp only [execBuy]
  by_cases hq : ord.2.1 ≤ eps
  · rw [if_pos hq]
    exact hwf
  · rw [if_neg hq]
    try dsimp only
    by_cases hc : ord.2.1 * (ord.2.2 * (1 + slippage)) + ord.2.1 * ord.2.2 * fee
        > acc.1.cash + 1 / 1000000
    · rw [if_pos hc]
      exact hwf
    · rw [if_neg hc]
      try dsimp only
      intro sp hsp
      rcases mem_updateA hsp with h | h
      · rw [h]
        have hq0 : 0 ≤ ((lookupA ord.1 acc.1.positions).getD
            { quantity := 0, avgPrice := 0, entryDate := d }).quantity := by
          rcases hl : lookupA ord.1 acc.1.positions with _ | position
          · simp [Option.getD]
          · simp only [Option.getD]
            exact le_of_lt (lt_of_le_of_lt heps (hwf _ (lookupA_mem hl)).1)
        have hent : PyDate.le ((lookupA ord.1 acc.1.positions).getD
            { quantity := 0, avgPrice := 0, entryDate := d }).entryDate d := by
          rcases hl : lookupA ord.1 acc.1.positions with _ | position
          · simp only [Option.getD]
            exact PyDate.le_refl d
          · simp only [Option.getD]
            exact (hwf _ (lookupA_mem hl)).2
        have hqty : eps < ((lookupA ord.1 acc.1.positions).getD
            { quantity := 0, avgPrice := 0, entryDate := d }).quantity + ord.2.1 := by
          have := not_le.mp hq
          linarith
        constructor
        · split_ifs <;> exact hqty
        · split_ifs <;> first
            | exact PyDate.le_refl d
            | exact hent
      · exact hwf _ h

theorem buyFold_wf (slippage fee eps : ℚ) (d : PyDate) (heps : 0 ≤ eps) :
    ∀ (orders : List Order) (acc : PortfolioState × ℚ),
      WfPos eps acc.1.positions d →
      WfPos eps (orders.foldl (execBuy slippage fee eps d) acc).1.positions d := by
  intro orders
  induction orders with
  | nil => intro acc hwf; exact hwf
  | cons hd tl ih =>
    intro acc hwf
    rw [List.foldl_cons]
    exact ih _ (execBuy_step_wf slippage fee eps d heps acc hd hwf)

theorem rebalance_wf (cfg : BacktestConfig) (st : PortfolioState)
    (targetWeights : List (String × Option ℚ)) (priceOf : String → Option ℚ)
    (d : PyDate) (hwf : WfPos (1/100000000) st.positions d) :
    WfPos (1/100000000) (rebalance cfg st targetWeights priceOf d).1.positions d ∧
    ∀ t ∈ (rebalance cfg st targetWeights priceOf d).2.1,
      PyDate.le t.entryDate t.exitDate ∧ 0 < t.quantity := by
  rw [rebalance]
  by_cases hpe : st.totalValue ≤ 0
  · rw [if_pos hpe]
    exact ⟨hwf, by simp⟩
  · rw [if_neg hpe]
    try dsimp only
    constructor
    · apply buyFold_wf cfg.slippageFactor cfg.feeFactor (1/100000000) d (by norm_num)
      exact (sellFold_wf cfg.slippageFactor cfg.feeFactor (1/100000000) d
        (by norm_num) _ (st, [], 0) hwf (by simp)).1
    · exact (sellFold_wf cfg.slippageFactor cfg.feeFactor (1/100000000) d
        (by norm_num) _ (st, [], 0) hwf (by simp)).2

theorem runCalls_trades_wf (cfg : BacktestConfig) :
    ∀ (calls : List RebalanceCall) (st : PortfolioState),
      List.Chain' (fun a b => PyDate.le a.date b.date) calls →
      (∀ c, calls.head? = some c → WfPos (1/100000000) st.positions c.date) →
      ∀ t ∈ (runRebalanceCalls cfg st calls).2,
        PyDate.le t.entryDate t.exitDate ∧ 0 < t.quantity := by
  intro calls
  induction calls with
  | nil => intro st _ _ t ht; cases ht
  | cons c rest ih =>
    intro st hchain hwf t ht
    rw [runRebalanceCalls] at ht
    have hwfc : WfPos (1/100000000) st.positions c.date := hwf c rfl
    have hwfM : WfPos (1/100000000) (markToMarket st c.priceOf).positions c.date := by
      rw [markToMarket_positions]
      exact hwfc
    have hreb := rebalance_wf cfg (markToMarket st c.priceOf) c.weights c.priceOf
      c.date hwfM
    rcases List.mem_append.mp ht with ht | ht
    · exact hreb.2 t ht
    · refine ih _ hchain.tail ?_ t ht
      intro c' hc'
      cases rest with
      | nil => cases hc'
      | cons c'' rest' =>
        injection hc' with hc'
        subst hc'
        exact wfPos_mono hreb.1 (List.chain'_cons.mp hchain).1

/-- C9: starting from a freshly constructed portfolio, a chronological
sequence of mark-to-market + rebalance steps only ever produces
`TradeRecord`s with `exit_date ≥ entry_date` and `quantity > 0`. -/
theorem c9_trade_records (cfg : BacktestConfig) (calls : List RebalanceCall)
    (hchron : List.Chain' (fun a b => PyDate.le a.date b.date) calls) :
    ∀ t ∈ (runRebalanceCalls cfg (initPortfolio cfg) calls).2,
      PyDate.le t.entryDate t.exitDate ∧ 0 < t.quantity :=
  runCalls_trades_wf cfg calls (initPortfolio cfg) hchron
    (fun _ _ sp hsp => absurd hsp (by simp [initPortfolio]))

/-- Witness for C9: two chronological rebalances (a full entry then a full
exit at a higher price). -/
theorem c9_trade_records_witness :
    (runRebalanceCalls { startDate := ⟨2023, 1, 2⟩, endDate := ⟨2023, 1, 6⟩ }
      (initPortfolio { startDate := ⟨2023, 1, 2⟩, endDate := ⟨2023, 1, 6⟩ })
      [⟨⟨2023, 1, 2⟩, [("AAA", some 1)], fun _ => some 10⟩,
       ⟨⟨2023, 1, 3⟩, [("AAA", some 0)], fun _ => some 11⟩]).2.Forall
      (fun t => PyDate.le t.entryDate t.exitDate ∧ 0 < t.quantity) :=
  List.forall_iff_forall_mem.mpr
    (c9_trade_records _ _ (by
      refine List.chain'_cons.mpr ⟨by decide, ?_⟩
      exact List.chain'_singleton _))

/-! ## C1: the buy-and-hold scenario -/

set_option maxHeartbeats 4000000 in
/-- C1: for symbol AAA with closes 10, 11, 12.5, 14, 15 on the five business
days from 2023-01-02, initial capital 100000, zero slippage and fees, a
strategy targeting `{AAA: 1.0}` and daily rebalancing, `run` succeeds with
`total_return = 0.5`, final equity 150000 and no trade records (the whole
position is bought on day one and never sold). -/
theorem c1_buy_and_hold :
    (run
      { startDate := ⟨2023, 1, 2⟩, endDate := ⟨2023, 1, 6⟩, initialCapital := 100000,
        rebalanceFrequency := "daily" }
      (fun _ _ _ => [("AAA", some 1)]) (some ["AAA"]) none
      [(⟨2023, 1, 2⟩, [("AAA", [("close", PyFloat.finite 10)])]),
       (⟨2023, 1, 3⟩, [("AAA", [("close", PyFloat.finite 11)])]),
       (⟨2023, 1, 4⟩, [("AAA", [("close", PyFloat.finite (25/2))])]),
       (⟨2023, 1, 5⟩, [("AAA", [("close", PyFloat.finite 14)])]),
       (⟨2023, 1, 6⟩, [("AAA", [("close", PyFloat.finite 15)])])]).toOption.map
      (fun r => (r.totalReturn, r.numTrades, r.trades, r.equityCurve.map (·.2)))
    = some (1/2, 0, [], [100000, 110000, 125000, 140000, 150000]) := by
  try simp +decide [run, resolveUniverse, cleanSymbols, strStrip, strUpper, charUpper,
    isSpaceChar, dedupFirst, sortBy, insertOrd, computeRebalanceDates, strLower,
    charLower, snapshotAt, runLoop, markToMarket, mtmStep, rebalance, prepareWeights,
    computeOrders, ordersStep, execSell, execBuy, estimateBuyCost, scaleBuys,
    resolvePriceQ, resolvePrice, resolveRawPrice, lookupA, updateA, eraseA,
    initPortfolio, BacktestConfig.slippageFactor, BacktestConfig.feeFactor,
    PyFloat.isna, PyFloat.posB, Option.orElse, Except.toOption]
  try norm_num
  try simp +decide [run, resolveUniverse, cleanSymbols, strStrip, strUpper, charUpper,
    isSpaceChar, dedupFirst, sortBy, insertOrd, computeRebalanceDates, strLower,
    charLower, snapshotAt, runLoop, markToMarket, mtmStep, rebalance, prepareWeights,
    computeOrders, ordersStep, execSell, execBuy, estimateBuyCost, scaleBuys,
    resolvePriceQ, resolvePrice, resolveRawPrice, lookupA, updateA, eraseA,
    initPortfolio, BacktestConfig.slippageFactor, BacktestConfig.feeFactor,
    PyFloat.isna, PyFloat.posB, Option.orElse, Except.toOption]
  try norm_num
  try simp +decide [run, resolveUniverse, cleanSymbols, strStrip, strUpper, charUpper,
    isSpaceChar, dedupFirst, sortBy, insertOrd, computeRebalanceDates, strLower,
    charLower, snapshotAt, runLoop, markToMarket, mtmStep, rebalance, prepareWeights,
    computeOrders, ordersStep, execSell, execBuy, estimateBuyCost, scaleBuys,
    resolvePriceQ, resolvePrice, resolveRawPrice, lookupA, updateA, eraseA,
    initPortfolio, BacktestConfig.slippageFactor, BacktestConfig.feeFactor,
    PyFloat.isna, PyFloat.posB, Option.orElse, Except.toOption]
  try norm_num
  try simp +decide [run, resolveUniverse, cleanSymbols, strStrip, strUpper, charUpper,
    isSpaceChar, dedupFirst, sortBy, insertOrd, computeRebalanceDates, strLower,
    charLower, snapshotAt, runLoop, markToMarket, mtmStep, rebalance, prepareWeights,
    computeOrders, ordersStep, execSell, execBuy, estimateBuyCost, scaleBuys,
    resolvePriceQ, resolvePrice, resolveRawPrice, lookupA, updateA, eraseA,
    initPortfolio, BacktestConfig.slippageFactor, BacktestConfig.feeFactor,
    PyFloat.isna, PyFloat.posB, Option.orElse, Except.toOption]
  try norm_num
